import Mathlib

/-!
# Verification of the `toarray` type-selection engine

Shallow embedding of `toarray/iterable_to_array.py` and `toarray/result.py`.

Python values are modelled by `PyVal`; CPython `float` objects (IEEE-754
binary64 doubles) are modelled as rationals, with the int→double and
double→float32 conversions modelled by round-to-nearest-even at 53 and 24
bits of precision (`roundPrec`).  Two modelling notes:

* IEEE special values (NaNs) and the reduced precision of subnormal
  numbers are outside the model.  The C `double → float` cast performs no
  range check and never fails: when the 24-bit rounded value reaches
  `2^128` CPython silently stores an infinity.  The model keeps that
  conversion total and represents the stored infinity by the out-of-range
  rounded rational itself (same sign, magnitude `≥ 2^128`).  The selection
  loop's magnitude guard keeps such values out of every `"f"` buffer
  `select_array` returns, so returned buffers settle identically; the
  stand-in can appear only where the code merely tests constructibility —
  the strict fallback scan, where success/failure agrees with CPython, and
  a later stream chunk re-validated against a committed `"f"`, which is
  emitted typed exactly when CPython emits it typed (storing the stand-in
  where CPython stores the infinity).
* The guard constant `F32_MAX = 3.4028235e38` of the source is modelled by
  the exact rational value of that decimal literal.  The CPython literal
  denotes the nearest double, which lies strictly between the largest
  finite float32 and the float32 overflow threshold exactly as the
  rational does, so every comparison performed by the code is unaffected.
-/

namespace ToArray

/-- Round-to-nearest, ties-to-even, of a rational to an integer
(the rounding used by IEEE-754 conversions). -/
def rne (r : ℚ) : ℤ :=
  if r - (⌊r⌋ : ℚ) < 1/2 then ⌊r⌋
  else if 1/2 < r - (⌊r⌋ : ℚ) then ⌊r⌋ + 1
  else if ⌊r⌋ % 2 = 0 then ⌊r⌋ else ⌊r⌋ + 1

/-- Round a rational to a floating-point significand of `p` bits
(round-to-nearest-even), with unbounded exponent.  `roundPrec 53` is the
value computed by an int→double or double→double conversion, `roundPrec 24`
the value computed by a double→float32 cast; exponent-range checks are done
separately at each use site. -/
def roundPrec (p : ℕ) (x : ℚ) : ℚ :=
  if x = 0 then 0
  else if x < 0 then
    -((rne (|x| * 2 ^ ((p : ℤ) - 1 - Int.log 2 |x|)) : ℚ) * 2 ^ (Int.log 2 |x| - (p : ℤ) + 1))
  else
    (rne (|x| * 2 ^ ((p : ℤ) - 1 - Int.log 2 |x|)) : ℚ) * 2 ^ (Int.log 2 |x| - (p : ℤ) + 1)

/-- `x` is representable with a significand of at most `p` bits. -/
def Rep (p : ℕ) (x : ℚ) : Prop :=
  ∃ m k : ℤ, x = (m : ℚ) * 2 ^ k ∧ |m| ≤ 2 ^ p

theorem rep_zero (p : ℕ) : Rep p 0 :=
  ⟨0, 0, by norm_num, by positivity⟩

theorem rep_mono {p q : ℕ} (hpq : p ≤ q) {x : ℚ} (h : Rep p x) : Rep q x := by
  obtain ⟨m, k, hx, hm⟩ := h
  exact ⟨m, k, hx, hm.trans (by exact_mod_cast pow_le_pow_right₀ one_le_two hpq)⟩

theorem rep_int (p : ℕ) (n : ℤ) (hn : |n| ≤ 2 ^ p) : Rep p (n : ℚ) :=
  ⟨n, 0, by norm_num, hn⟩

theorem rep_neg {p : ℕ} {x : ℚ} (h : Rep p x) : Rep p (-x) := by
  obtain ⟨m, k, hx, hm⟩ := h
  exact ⟨-m, k, by rw [hx]; push_cast; ring, by simpa using hm⟩

theorem rne_intCast (z : ℤ) : rne (z : ℚ) = z := by
  simp [rne, Int.floor_intCast]

theorem rne_of_int_eq {r : ℚ} (z : ℤ) (hz : (z : ℚ) = r) : rne r = z := by
  subst hz; exact rne_intCast z

/-- `rne` is the floor or the floor plus one. -/
theorem rne_eq_floor_or (r : ℚ) : rne r = ⌊r⌋ ∨ rne r = ⌊r⌋ + 1 := by
  unfold rne
  split
  · exact Or.inl rfl
  split
  · exact Or.inr rfl
  split
  · exact Or.inl rfl
  · exact Or.inr rfl

/-- The two Mathlib bracketing facts for `Int.log`, packaged. -/
theorem log_bracket {x : ℚ} (hx : 0 < x) :
    (2 : ℚ) ^ (Int.log 2 x) ≤ x ∧ x < (2 : ℚ) ^ (Int.log 2 x + 1) :=
  ⟨Int.zpow_log_le_self (by norm_num) hx, Int.lt_zpow_succ_log_self (by norm_num) x⟩

theorem abs_mul_zpow (m k : ℤ) : |(m : ℚ) * 2 ^ k| = (|m| : ℚ) * 2 ^ k := by
  rw [abs_mul, abs_of_pos (show (0:ℚ) < 2 ^ k by positivity)]

/-- Rounding fixes every `p`-bit representable value (for positive `p`). -/
theorem roundPrec_fixed {p : ℕ} (hp : 0 < p) {x : ℚ} (h : Rep p x) : roundPrec p x = x := by
  rcases eq_or_ne x 0 with rfl | hx0
  · simp [roundPrec]
  obtain ⟨m, k, hxmk, hm⟩ := h
  have hxabs : 0 < |x| := abs_pos.mpr hx0
  obtain ⟨hlo, hhi⟩ := log_bracket hxabs
  set e := Int.log 2 |x| with he
  have hm0 : m ≠ 0 := by rintro rfl; simp at hxmk; exact hx0 hxmk
  have habs : |x| = (|m| : ℚ) * 2 ^ k := by rw [hxmk]; exact abs_mul_zpow m k
  have hmq : (|m| : ℚ) ≤ (2 : ℚ) ^ (p : ℤ) := by
    rw [zpow_natCast]; exact_mod_cast hm
  have hek : e ≤ (p : ℤ) + k := by
    have h2 : (2 : ℚ) ^ e ≤ (2 : ℚ) ^ ((p : ℤ) + k) := by
      calc (2 : ℚ) ^ e ≤ |x| := hlo
        _ = (|m| : ℚ) * 2 ^ k := habs
        _ ≤ (2 : ℚ) ^ (p : ℤ) * 2 ^ k := mul_le_mul_of_nonneg_right hmq (by positivity)
        _ = (2 : ℚ) ^ ((p : ℤ) + k) := by rw [← zpow_add₀ (two_ne_zero)]
    by_contra hlt
    push_neg at hlt
    exact absurd h2 (not_le.mpr (zpow_lt_zpow_right₀ (by norm_num) hlt))
  have hscaled : ∃ z : ℤ, (z : ℚ) = |x| * 2 ^ ((p : ℤ) - 1 - e) := by
    rcases lt_or_eq_of_le hek with hlt | heq
    · -- k + (p - 1 - e) ≥ 0, so the scaled value is |m| times a natural power of 2
      refine ⟨|m| * 2 ^ ((k + ((p : ℤ) - 1 - e)).toNat), ?_⟩
      have hnn : 0 ≤ k + ((p : ℤ) - 1 - e) := by omega
      rw [habs]
      push_cast
      rw [mul_assoc, ← zpow_natCast (2 : ℚ), Int.toNat_of_nonneg hnn,
        ← zpow_add₀ (two_ne_zero : (2:ℚ) ≠ 0)]
    · -- boundary case e = p + k: then |x| = 2 ^ e
      have hxpow : |x| = (2 : ℚ) ^ e := by
        have hle : |x| ≤ (2 : ℚ) ^ e := by
          calc |x| = (|m| : ℚ) * 2 ^ k := habs
            _ ≤ (2 : ℚ) ^ (p : ℤ) * 2 ^ k :=
                mul_le_mul_of_nonneg_right hmq (by positivity)
            _ = (2 : ℚ) ^ ((p : ℤ) + k) := by rw [← zpow_add₀ (two_ne_zero)]
            _ = (2 : ℚ) ^ e := by rw [← heq]
        exact le_antisymm hle hlo
      refine ⟨2 ^ (p - 1 : ℕ), ?_⟩
      rw [hxpow, ← zpow_add₀ (two_ne_zero : (2:ℚ) ≠ 0),
        show e + ((p : ℤ) - 1 - e) = ((p - 1 : ℕ) : ℤ) by omega,
        zpow_natCast]
      norm_cast
  obtain ⟨z, hz⟩ := hscaled
  have hrne : rne (|x| * 2 ^ ((p : ℤ) - 1 - e)) = z := rne_of_int_eq z hz
  have hval : ((rne (|x| * 2 ^ ((p : ℤ) - 1 - e)) : ℤ) : ℚ) * 2 ^ (e - (p : ℤ) + 1) = |x| := by
    rw [hrne, hz, mul_assoc, ← zpow_add₀ (two_ne_zero : (2:ℚ) ≠ 0),
      show ((p : ℤ) - 1 - e + (e - (p : ℤ) + 1) : ℤ) = 0 by ring, zpow_zero, mul_one]
  unfold roundPrec
  rw [if_neg hx0, ← he]
  by_cases hneg : x < 0
  · rw [if_pos hneg, hval, abs_of_neg hneg, neg_neg]
  · rw [if_neg hneg, hval, abs_of_nonneg (le_of_not_lt hneg)]

/-- The output of `roundPrec p` is `p`-bit representable. -/
theorem roundPrec_rep (p : ℕ) (x : ℚ) : Rep p (roundPrec p x) := by
  rcases eq_or_ne x 0 with rfl | hx0
  · simpa [roundPrec] using rep_zero p
  have hxabs : 0 < |x| := abs_pos.mpr hx0
  obtain ⟨hlo, hhi⟩ := log_bracket hxabs
  set e := Int.log 2 |x| with he
  set r := |x| * 2 ^ ((p : ℤ) - 1 - e) with hr
  have hrpos : 0 < r := by rw [hr]; positivity
  have hrlt : r < (2 : ℚ) ^ (p : ℤ) := by
    calc r < (2 : ℚ) ^ (e + 1) * 2 ^ ((p : ℤ) - 1 - e) :=
          mul_lt_mul_of_pos_right hhi (by positivity)
      _ = (2 : ℚ) ^ (p : ℤ) := by
          rw [← zpow_add₀ (two_ne_zero : (2:ℚ) ≠ 0)]; ring_nf
  have hfloor_lt : ⌊r⌋ < 2 ^ p := by
    have h1 : (⌊r⌋ : ℚ) < (2 : ℚ) ^ (p : ℤ) := lt_of_le_of_lt (Int.floor_le r) hrlt
    rw [zpow_natCast] at h1
    exact_mod_cast h1
  have hfloor_nonneg : 0 ≤ ⌊r⌋ := Int.floor_nonneg.mpr hrpos.le
  have hm : |rne r| ≤ 2 ^ p := by
    rcases rne_eq_floor_or r with h | h <;> rw [h, abs_of_nonneg (by omega)] <;> omega
  unfold roundPrec
  rw [if_neg hx0, ← he, ← hr]
  by_cases hneg : x < 0
  · rw [if_pos hneg]
    exact rep_neg ⟨rne r, e - (p : ℤ) + 1, rfl, hm⟩
  · rw [if_neg hneg]
    exact ⟨rne r, e - (p : ℤ) + 1, rfl, hm⟩

/-- A 24-bit representable value strictly below `2 ^ 128` is at most the
largest finite float32, `2 ^ 128 - 2 ^ 104`. -/
theorem rep24_bound {y : ℚ} (h : Rep 24 y) (hlt : |y| < 2 ^ 128) :
    |y| ≤ 2 ^ 128 - 2 ^ 104 := by
  obtain ⟨m, k, hy, hm⟩ := h
  rcases eq_or_ne m 0 with rfl | hm0
  · rw [hy]; norm_num
  have habs : |y| = (|m| : ℚ) * 2 ^ k := by rw [hy]; exact abs_mul_zpow m k
  rcases le_or_lt k 103 with hk | hk
  · -- small exponent: |y| ≤ 2^24 * 2^103 = 2^127
    have h1 : |y| ≤ (2 : ℚ) ^ (24 : ℤ) * 2 ^ (103 : ℤ) := by
      rw [habs]
      apply mul_le_mul _ (zpow_le_zpow_right₀ (by norm_num) hk) (by positivity) (by positivity)
      rw [show ((2:ℚ) ^ (24:ℤ)) = ((2 ^ 24 : ℤ) : ℚ) by norm_num]
      exact_mod_cast hm
    calc |y| ≤ (2 : ℚ) ^ (24 : ℤ) * 2 ^ (103 : ℤ) := h1
      _ = 2 ^ 127 := by norm_num
      _ ≤ 2 ^ 128 - 2 ^ 104 := by norm_num
  · -- large exponent: |m| < 2^(128-k) forces |y| ≤ 2^128 - 2^k ≤ 2^128 - 2^104
    have hmlt : (|m| : ℚ) * 2 ^ k < (2 : ℚ) ^ (128 : ℤ) := by
      rw [← habs]
      calc |y| < 2 ^ 128 := hlt
        _ = (2 : ℚ) ^ (128 : ℤ) := by norm_num
    have hmltp : (|m| : ℚ) < (2 : ℚ) ^ ((128 : ℤ) - k) := by
      have h2k : (0 : ℚ) < 2 ^ k := by positivity
      rw [← lt_div_iff₀ h2k] at hmlt
      calc (|m| : ℚ) < (2 : ℚ) ^ (128 : ℤ) / 2 ^ k := hmlt
        _ = (2 : ℚ) ^ ((128 : ℤ) - k) := by
            rw [← zpow_sub₀ (two_ne_zero : (2:ℚ) ≠ 0)]
    have hm1 : (1 : ℚ) ≤ (|m| : ℚ) := by exact_mod_cast Int.one_le_abs hm0
    have hklt : k < 128 := by
      by_contra hge
      push_neg at hge
      have : (2 : ℚ) ^ ((128 : ℤ) - k) ≤ (2 : ℚ) ^ (0 : ℤ) :=
        zpow_le_zpow_right₀ (by norm_num) (by omega)
      rw [zpow_zero] at this
      linarith
    obtain ⟨j, hj⟩ : ∃ j : ℕ, (128 : ℤ) - k = (j : ℤ) := ⟨((128 : ℤ) - k).toNat, by omega⟩
    have hmint : |m| < 2 ^ j := by
      have h1 : (|m| : ℚ) < (2 : ℚ) ^ (j : ℤ) := by rw [← hj]; exact hmltp
      rw [zpow_natCast] at h1
      exact_mod_cast h1
    have hmle : |m| ≤ 2 ^ j - 1 := by omega
    have h1 : |y| ≤ ((2 : ℚ) ^ j - 1) * 2 ^ k := by
      rw [habs]
      apply mul_le_mul_of_nonneg_right _ (by positivity)
      calc (|m| : ℚ) ≤ ((2 ^ j - 1 : ℤ) : ℚ) := by exact_mod_cast hmle
        _ = (2 : ℚ) ^ j - 1 := by push_cast; norm_num
    have hkpow : (2 : ℚ) ^ (104 : ℤ) ≤ (2 : ℚ) ^ k :=
      zpow_le_zpow_right₀ (by norm_num) (by omega)
    calc |y| ≤ ((2 : ℚ) ^ j - 1) * 2 ^ k := h1
      _ = (2 : ℚ) ^ j * 2 ^ k - 2 ^ k := by ring
      _ = (2 : ℚ) ^ 128 - 2 ^ k := by
          rw [← zpow_natCast (2 : ℚ) j, ← zpow_add₀ (two_ne_zero : (2:ℚ) ≠ 0),
            show ((j : ℤ) + k = 128) by omega]
          norm_num
      _ ≤ 2 ^ 128 - 2 ^ 104 := by
          have h104 : (2 : ℚ) ^ (104 : ℤ) = (2 : ℚ) ^ (104 : ℕ) := by norm_num
          rw [h104] at hkpow
          linarith

/-! ## Data model: Python values, errors, results -/

/-- A Python value as seen by this library: an `int`, a `float` (modelled as
its exact rational value), a `complex` (payload irrelevant here: every use
either carries it around untouched or raises before inspecting it), or any
non-numeric object, distinguished by an opaque tag. -/
inductive PyVal where
  | int (n : ℤ)
  | float (q : ℚ)
  | complex
  | other (tag : ℕ)
deriving DecidableEq

instance : Inhabited PyVal := ⟨PyVal.int 0⟩

/-- `isinstance(x, numbers.Number)`: ints, floats and complex numbers are
`Number`s; other objects are not. -/
def isNumber : PyVal → Bool
  | .int _ => true
  | .float _ => true
  | .complex => true
  | .other _ => false

/-- `isinstance(x, float)`. -/
def isFloat : PyVal → Bool
  | .float _ => true
  | _ => false

/-- Exceptions that can escape the embedded functions.
`selectionError` models `SelectionError(index, value, expected)` from
`result.py` (a `ValueError` carrying the offending index, the offending
value and the expected-encoding string). -/
inductive PyErr where
  | selectionError (index : ℕ) (value : PyVal) (expected : String)
  | typeError
  | overflowError
  | stopIteration
deriving DecidableEq

/-- Result of `select_array` (and the element type of `stream_array`'s
output): either a typed buffer `array(code, ...)` holding the stored
(converted) values, or a plain Python list. -/
inductive SelectOut where
  | arr (code : String) (stored : List PyVal)
  | list (vals : List PyVal)
deriving DecidableEq

/-- The keyword options of `select_array`. -/
inductive Policy where
  | smallest
  | balanced
  | wide
deriving DecidableEq

structure Opts where
  policy : Policy := .smallest
  min_type : Option String := none
  max_type : Option String := none
  prefer_signed : Bool := false
  allow_float_downgrade : Bool := true
  no_float : Bool := false
  strict : Bool := false
deriving DecidableEq

def defaultOpts : Opts := {}

/-! ## Type catalog and element conversions -/

/-- Inclusive value range of each integer type code of the `array` module
(1/2/4/8-byte signed and unsigned, as documented and as on CPython's
supported 64-bit platforms); `none` for non-integer codes. -/
def intCodeRange (code : String) : Option (ℤ × ℤ) :=
  if code = "b" then some (-128, 127)
  else if code = "B" then some (0, 255)
  else if code = "h" then some (-32768, 32767)
  else if code = "H" then some (0, 65535)
  else if code = "i" then some (-2147483648, 2147483647)
  else if code = "I" then some (0, 4294967295)
  else if code = "q" then some (-9223372036854775808, 9223372036854775807)
  else if code = "Q" then some (0, 18446744073709551615)
  else none

/-- One element of `array(code, values)`:
* integer codes require an actual `int` (a `float` raises `TypeError` even
  when integral) within the code's range (`OverflowError` otherwise), and
  store it exactly;
* `"f"` converts via `PyFloat_AsDouble` (rounding an int to 53 bits,
  `OverflowError` at `2^1024`) and then casts the double to float32
  (24-bit rounding, unchecked: a result reaching `2^128` is CPython's
  silently stored infinity, see the header note);
* `"d"` stores the `PyFloat_AsDouble` value itself;
* any other code is a `ValueError` (`array.array` rejects the typecode).
`none` is any raised exception (the callers catch them all). -/
def tryConvert (code : String) (v : PyVal) : Option PyVal :=
  match intCodeRange code with
  | some (lo, hi) =>
    match v with
    | .int n => if lo ≤ n ∧ n ≤ hi then some (.int n) else none
    | _ => none
  | none =>
    if code = "f" then
      match v with
      | .int n =>
        if (2 : ℚ) ^ 1024 ≤ |roundPrec 53 (n : ℚ)| then none
        else some (.float (roundPrec 24 (roundPrec 53 (n : ℚ))))
      | .float q => some (.float (roundPrec 24 (roundPrec 53 q)))
      | _ => none
    else if code = "d" then
      match v with
      | .int n =>
        if (2 : ℚ) ^ 1024 ≤ |roundPrec 53 (n : ℚ)| then none
        else some (.float (roundPrec 53 (n : ℚ)))
      | .float q => some (.float (roundPrec 53 q))
      | _ => none
    else none

/-- `_try_array(type_code, values)`: build `array(type_code, values)`,
returning `none` if any element conversion raises
(`OverflowError`/`TypeError`/`ValueError` are all caught). -/
def tryArray (code : String) : List PyVal → Option (List PyVal)
  | [] => some []
  | v :: rest =>
    match tryConvert code v with
    | some w => (tryArray code rest).map (fun ws => w :: ws)
    | none => none

/-- `_is_all_numeric(values)`. -/
def isAllNumeric (values : List PyVal) : Bool :=
  values.all isNumber

/-- `float(v)`: the coercion used to build the `floats` list in
`select_array`/`analyze_array`.  Rounds an int to a double
(`OverflowError` at `2^1024`); the identity on genuine doubles (and a
53-bit sanitisation of any rational outside the double domain);
`TypeError` on complex and non-numeric values. -/
def floatOfVal : PyVal → Except PyErr ℚ
  | .int n =>
    if (2 : ℚ) ^ 1024 ≤ |roundPrec 53 (n : ℚ)| then .error .overflowError
    else .ok (roundPrec 53 (n : ℚ))
  | .float q => .ok (roundPrec 53 q)
  | .complex => .error .typeError
  | .other _ => .error .typeError

/-- `[float(v) for v in values]`: raises at the first failing element. -/
def coerceAll : List PyVal → Except PyErr (List ℚ)
  | [] => .ok []
  | v :: rest =>
    match floatOfVal v with
    | .error e => .error e
    | .ok q =>
      match coerceAll rest with
      | .error e => .error e
      | .ok qs => .ok (q :: qs)

/-! ## `_scan_stats` -/

structure ScanStats where
  count : ℕ
  vmin : Option ℚ
  vmax : Option ℚ
  hasFloat : Bool
deriving DecidableEq

/-- Numeric value used by `min`/`max` comparisons.  `_scan_stats` is only
ever called on lists of floats (both call sites pass the float-coerced
copy), so only the `float` branch is reachable. -/
def numVal : PyVal → ℚ
  | .int n => (n : ℚ)
  | .float q => q
  | .complex => 0
  | .other _ => 0

def listMin : List ℚ → Option ℚ
  | [] => none
  | q :: qs => some (qs.foldl min q)

def listMax : List ℚ → Option ℚ
  | [] => none
  | q :: qs => some (qs.foldl max q)

/-- `_scan_stats(values)`.  Note: `has_float` is computed over the list it
receives; `select_array` and `analyze_array` pass the float-coerced copy,
which is what makes the flag degenerate (see claim C2). -/
def scanStats (values : List PyVal) : ScanStats :=
  if values.length = 0 then ⟨0, none, none, false⟩
  else
    { count := values.length
      vmin := listMin (values.map numVal)
      vmax := listMax (values.map numVal)
      hasFloat := values.any isFloat }

/-! ## `_type_sequence` -/

/-- The canonical catalog position of a recognised type code (the `order`
dict built inside `_type_sequence`). -/
def canonIdx (code : String) : Option ℕ :=
  if code = "b" then some 0
  else if code = "B" then some 1
  else if code = "h" then some 2
  else if code = "H" then some 3
  else if code = "i" then some 4
  else if code = "I" then some 5
  else if code = "q" then some 6
  else if code = "Q" then some 7
  else if code = "f" then some 8
  else if code = "d" then some 9
  else none

/-- Python truthiness of an optional string (`if min_type or max_type:`):
`None` and the empty string are falsy. -/
def strTruthy : Option String → Bool
  | none => false
  | some s => if s = "" then false else true

/-- The `# Bound by min_type/max_type if provided` block of
`_type_sequence`: under Python truthiness of either bound, keep the codes
whose canonical position (default `lo` for unknown codes, as in
`order.get(c, lo)`) lies between `lo` and `hi`. -/
def srcBoundsFilter (min_type max_type : Option String) (seq : List String) : List String :=
  if strTruthy min_type || strTruthy max_type then
    let lo := match min_type with | some s => (canonIdx s).getD 0 | none => 0
    let hi := match max_type with | some s => (canonIdx s).getD 9 | none => 9
    seq.filter (fun c => lo ≤ (canonIdx c).getD lo ∧ (canonIdx c).getD lo ≤ hi)
  else seq

/-- `_type_sequence(policy, prefer_signed, no_float, min_type, max_type)`. -/
def typeSequence (policy : Policy) (prefer_signed no_float : Bool)
    (min_type max_type : Option String) : List String :=
  let base :=
    if prefer_signed then ["b", "B", "h", "H", "i", "I", "q", "Q"]
    else ["B", "b", "H", "h", "I", "i", "Q", "q"]
  let base :=
    match policy with
    | .balanced => ["b", "B", "h", "H", "i", "I", "q", "Q"]
    | .wide => ["i", "I", "q", "Q", "h", "H", "b", "B"]
    | .smallest => base
  let seq := base ++ (if no_float then [] else ["f", "d"])
  srcBoundsFilter min_type max_type seq

/-! ## `select_array` -/

/-- `F32_MAX = 3.4028235e38` (see the header note on this constant). -/
def F32_MAX : ℚ := 34028235 * 10 ^ 31

/-- The repeated guard expression
`vmax is not None and (abs(vmax) > F32_MAX or (vmin is not None and abs(vmin) > F32_MAX))`. -/
def f32RangeExceeded (vmin vmax : Option ℚ) : Bool :=
  match vmax with
  | none => false
  | some b =>
    if |b| > F32_MAX then true
    else match vmin with
      | some a => if |a| > F32_MAX then true else false
      | none => false

/-- The candidate list after the `allow_float_downgrade` filter
(`candidates = [c for c in candidates if c != "f"]` under its condition). -/
def afdCandidates (o : Opts) (st : ScanStats) : List String :=
  let candidates := typeSequence o.policy o.prefer_signed o.no_float o.min_type o.max_type
  if (!o.allow_float_downgrade) && st.hasFloat && f32RangeExceeded st.vmin st.vmax then
    candidates.filter (fun c => !(c = "f" : Bool))
  else candidates

/-- The `for code in candidates:` loop of `select_array`: skip `"f"` when
floats are present and the magnitude guard trips, otherwise attempt the
code and return the first success. -/
def tryLoop (cands : List String) (values : List PyVal) (hasF : Bool)
    (vmin vmax : Option ℚ) : Option (String × List PyVal) :=
  match cands with
  | [] => none
  | code :: rest =>
    if (code = "f" ∨ code = "d") ∧ hasF = true ∧ code = "f"
        ∧ f32RangeExceeded vmin vmax = true then
      tryLoop rest values hasF vmin vmax
    else
      match tryArray code values with
      | some a => some (code, a)
      | none => tryLoop rest values hasF vmin vmax

/-- The scan of the strict failure path: first index whose singleton
`array(try_code, [val])` raises. -/
def firstFailIdx (code : String) : List PyVal → ℕ → Option (ℕ × PyVal)
  | [], _ => none
  | v :: rest, i =>
    if tryArray code [v] = none then some (i, v)
    else firstFailIdx code rest (i + 1)

/-- The `if strict:` block at the bottom of `select_array`. -/
def strictFallback (candidates : List String) (values : List PyVal) :
    Except PyErr SelectOut :=
  let tc := candidates.getLast?.getD "d"
  match firstFailIdx tc values 0 with
  | some (i, v) => .error (.selectionError i v tc)
  | none => .error (.selectionError 0 values.headI tc)

/-- `select_array(iterable, **options)`.  (The source builds `candidates`
just before the `no_float` branch; since `_type_sequence` is pure, fusing
it with the later `allow_float_downgrade` filter into `afdCandidates` is
observationally identical.) -/
def selectArray (values : List PyVal) (o : Opts) : Except PyErr SelectOut :=
  if values.length = 0 then .ok (.list [])
  else if !(isAllNumeric values) then .ok (.list values)
  else
    match coerceAll values with
    | .error e => .error e
    | .ok floats =>
      let st := scanStats (floats.map PyVal.float)
      if st.hasFloat && o.no_float then
        if o.strict then
          match values.find? (fun v => isFloat v) with
          | some off => .error (.selectionError 0 off "integers only")
          | none => .error .stopIteration
        else .ok (.list values)
      else
        let cands := afdCandidates o st
        match tryLoop cands values st.hasFloat st.vmin st.vmax with
        | some (code, a) => .ok (.arr code a)
        | none =>
          if o.strict then strictFallback cands values
          else .ok (.list values)

/-! ## `analyze_array` -/

structure ArrayResult where
  value : SelectOut
  typecode : Option String
  count : ℕ
  min : Option ℚ
  max : Option ℚ
  reason : String
deriving DecidableEq

/-- `analyze_array(iterable, **kwargs)`. -/
def analyzeArray (values : List PyVal) (o : Opts) : Except PyErr ArrayResult :=
  if values.length = 0 then
    .ok ⟨.list [], none, 0, none, none, "empty"⟩
  else if !(isAllNumeric values) then
    .ok ⟨.list values, none, values.length, none, none, "non-numeric"⟩
  else
    match coerceAll values with
    | .error e => .error e
    | .ok floats =>
      let st := scanStats (floats.map PyVal.float)
      match selectArray values o with
      | .error e => .error e
      | .ok (.arr code a) =>
        .ok ⟨.arr code a, some code, st.count, st.vmin, st.vmax,
          if st.hasFloat then "float" else "int"⟩
      | .ok (.list _) =>
        .ok ⟨.list values, none, st.count, st.vmin, st.vmax, "no-fitting-type"⟩

/-! ## `stream_array` -/

/-- Windows of (up to) `cs` items of the tail of the stream, as accumulated
by the `buf` loop.  `stream_array` only reaches this with `cs ≥ 1`
(otherwise the first window is already empty and the generator returns);
the `max cs 1`-style recursion below is therefore exercised only at
`cs ≥ 1`, where it is exact. -/
def chunkWindows (cs : ℕ) : List PyVal → List (List PyVal)
  | [] => []
  | x :: rest => (x :: rest.take (cs - 1)) :: chunkWindows cs (rest.drop (cs - 1))
termination_by xs => xs.length
decreasing_by
  simp only [List.length_drop, List.length_cons]
  omega

/-- The committed encoding: `selected.typecode if isinstance(selected, array) else None`. -/
def chunkCode : SelectOut → Option String
  | .arr c _ => some c
  | .list _ => none

/-- How one later window is emitted given the committed code. -/
def emitChunk (committed : Option String) (w : List PyVal) : SelectOut :=
  match committed with
  | none => .list w
  | some c =>
    match tryArray c w with
    | some a => .arr c a
    | none => .list w

/-- `stream_array(iterable, chunk_size=..., **kwargs)` on a finite input,
with the lazy generator materialised as the list of yielded chunks (or the
exception the first `next()` raises). -/
def streamArray (chunkSize : ℤ) (input : List PyVal) (o : Opts) :
    Except PyErr (List SelectOut) :=
  let first := input.take chunkSize.toNat
  if first = [] then .ok []
  else
    match selectArray first o with
    | .error e => .error e
    | .ok selected =>
      .ok (selected ::
        (chunkWindows chunkSize.toNat (input.drop chunkSize.toNat)).map
          (emitChunk (chunkCode selected)))

/-- `get_array(iterable)`: delegate to the policy engine with
`policy="smallest"`. -/
def getArray (values : List PyVal) : Except PyErr SelectOut :=
  selectArray values { defaultOpts with policy := .smallest }

/-! ## Evaluation lemmas for the conversions -/

theorem abs_cast_le_pow {n : ℤ} {p : ℕ} (h : |n| ≤ 2 ^ p) : |(n : ℚ)| ≤ (2 : ℚ) ^ p := by
  rw [← Int.cast_abs]
  exact_mod_cast h

theorem floatOfVal_int (n : ℤ) (h : |n| ≤ 2 ^ 53) : floatOfVal (.int n) = .ok (n : ℚ) := by
  have hfix : roundPrec 53 (n : ℚ) = (n : ℚ) := roundPrec_fixed (by norm_num) (rep_int 53 n h)
  have hlt : ¬ ((2 : ℚ) ^ 1024 ≤ |(n : ℚ)|) := by
    push_neg
    calc |(n : ℚ)| ≤ (2 : ℚ) ^ 53 := abs_cast_le_pow h
      _ < (2 : ℚ) ^ 1024 := by norm_num
  simp only [floatOfVal]
  rw [hfix, if_neg hlt]

theorem floatOfVal_float {q : ℚ} (h : Rep 53 q) : floatOfVal (.float q) = .ok q := by
  simp only [floatOfVal]
  rw [roundPrec_fixed (by norm_num) h]

theorem tryConvert_int_code (code : String) (lo hi : ℤ)
    (h : intCodeRange code = some (lo, hi)) (n : ℤ) :
    tryConvert code (.int n) = if lo ≤ n ∧ n ≤ hi then some (.int n) else none := by
  unfold tryConvert
  rw [h]

theorem tryConvert_int_code_float {code : String} {lo hi : ℤ}
    (h : intCodeRange code = some (lo, hi)) (q : ℚ) :
    tryConvert code (.float q) = none := by
  unfold tryConvert
  rw [h]

theorem tryConvert_d_float {q : ℚ} (h : Rep 53 q) :
    tryConvert "d" (.float q) = some (.float q) := by
  unfold tryConvert
  rw [show intCodeRange "d" = none from rfl]
  simp only [show (("d" : String) = "f") = False by simp, if_false,
    show (("d" : String) = "d") = True by simp, if_true]
  rw [roundPrec_fixed (by norm_num) h]

theorem tryConvert_f_float {q : ℚ} (h : Rep 24 q) :
    tryConvert "f" (.float q) = some (.float q) := by
  unfold tryConvert
  rw [show intCodeRange "f" = none from rfl]
  simp only [show (("f" : String) = "f") = True by simp, if_true]
  rw [roundPrec_fixed (by norm_num) (rep_mono (by norm_num) h),
    roundPrec_fixed (by norm_num) h]

theorem tryConvert_f_int {n : ℤ} (h : |n| ≤ 2 ^ 24) :
    tryConvert "f" (.int n) = some (.float (n : ℚ)) := by
  have h53 : |n| ≤ 2 ^ 53 := h.trans (by norm_num)
  have hfix53 : roundPrec 53 (n : ℚ) = (n : ℚ) := roundPrec_fixed (by norm_num) (rep_int 53 n h53)
  have hfix24 : roundPrec 24 (n : ℚ) = (n : ℚ) := roundPrec_fixed (by norm_num) (rep_int 24 n h)
  have hq : |(n : ℚ)| ≤ (2 : ℚ) ^ 24 := abs_cast_le_pow h
  unfold tryConvert
  rw [show intCodeRange "f" = none from rfl]
  simp only [show (("f" : String) = "f") = True by simp, if_true]
  rw [hfix53, hfix24, if_neg (by push_neg; calc |(n:ℚ)| ≤ (2:ℚ)^24 := hq
        _ < 2 ^ 1024 := by norm_num)]

theorem tryConvert_d_int {n : ℤ} (h : |n| ≤ 2 ^ 53) :
    tryConvert "d" (.int n) = some (.float (n : ℚ)) := by
  have hfix : roundPrec 53 (n : ℚ) = (n : ℚ) := roundPrec_fixed (by norm_num) (rep_int 53 n h)
  unfold tryConvert
  rw [show intCodeRange "d" = none from rfl]
  simp only [show (("d" : String) = "f") = False by simp, if_false,
    show (("d" : String) = "d") = True by simp, if_true]
  rw [hfix, if_neg (by push_neg; calc |(n:ℚ)| ≤ (2:ℚ)^53 := abs_cast_le_pow h
        _ < 2 ^ 1024 := by norm_num)]

theorem f32RangeExceeded_false {a b : ℚ} (ha : |a| ≤ F32_MAX) (hb : |b| ≤ F32_MAX) :
    f32RangeExceeded (some a) (some b) = false := by
  simp only [f32RangeExceeded]
  rw [if_neg (by push_neg; exact hb), if_neg (by push_neg; exact ha)]

/-! ## The candidate sequencer as the specification words it (claim C6) -/

/-- The bounds filter as claim C6 words it: an *unconditional* window
filter by canonical catalog position, each bound defaulting to the full
range (`0` resp. `9`) when absent or unrecognised. -/
def specBoundsFilter (min_type max_type : Option String) (seq : List String) : List String :=
  seq.filter (fun c =>
    match canonIdx c with
    | some k => decide ((min_type.bind canonIdx).getD 0 ≤ k ∧ k ≤ (max_type.bind canonIdx).getD 9)
    | none => false)

/-- The candidate list exactly as claim C6 enumerates it: for `smallest`
the eight integer codes width-ascending with signed-before-unsigned within
each width iff `prefer_signed`; for `balanced` and `wide` the two fixed
orders, `prefer_signed` ignored; `f` then `d` appended last unless
`no_float`; then the canonical-position window filter. -/
def typeSequenceSpec (policy : Policy) (prefer_signed no_float : Bool)
    (min_type max_type : Option String) : List String :=
  let ints :=
    match policy with
    | .smallest =>
      if prefer_signed then ["b", "B", "h", "H", "i", "I", "q", "Q"]
      else ["B", "b", "H", "h", "I", "i", "Q", "q"]
    | .balanced => ["b", "B", "h", "H", "i", "I", "q", "Q"]
    | .wide => ["i", "I", "q", "Q", "h", "H", "b", "B"]
  specBoundsFilter min_type max_type (ints ++ (if no_float then [] else ["f", "d"]))

theorem strTruthy_false_iff (o : Option String) :
    strTruthy o = false ↔ o = none ∨ o = some "" := by
  rcases o with _ | s
  · simp [strTruthy]
  · constructor
    · intro h
      simp only [strTruthy] at h
      right
      by_cases hs : s = ""
      · rw [hs]
      · rw [if_neg hs] at h
        exact absurd h (by simp)
    · rintro (h | h)
      · exact absurd h (by simp)
      · rw [Option.some_inj] at h
        simp [strTruthy, h]

theorem lo_src_eq (mn : Option String) :
    (match mn with | some s => (canonIdx s).getD 0 | none => 0) = (mn.bind canonIdx).getD 0 := by
  cases mn <;> rfl

theorem hi_src_eq (mx : Option String) :
    (match mx with | some s => (canonIdx s).getD 9 | none => 9) = (mx.bind canonIdx).getD 9 := by
  cases mx <;> rfl

theorem srcBoundsFilter_eq_spec (mn mx : Option String) (seq : List String)
    (h : ∀ c ∈ seq, ∃ k, canonIdx c = some k ∧ k ≤ 9) :
    srcBoundsFilter mn mx seq = specBoundsFilter mn mx seq := by
  unfold srcBoundsFilter specBoundsFilter
  by_cases ht : (strTruthy mn || strTruthy mx) = true
  · rw [if_pos ht]
    apply List.filter_congr
    intro c hc
    obtain ⟨k, hk, hk9⟩ := h c hc
    rw [hk, lo_src_eq, hi_src_eq]
    simp only [Option.getD_some]
  · rw [if_neg ht]
    rw [Bool.or_eq_true, not_or, Bool.not_eq_true, Bool.not_eq_true] at ht
    obtain ⟨hmn, hmx⟩ := ht
    have hlo : (mn.bind canonIdx).getD 0 = 0 := by
      rcases (strTruthy_false_iff mn).mp hmn with rfl | rfl
      · rfl
      · rfl
    have hhi : (mx.bind canonIdx).getD 9 = 9 := by
      rcases (strTruthy_false_iff mx).mp hmx with rfl | rfl
      · rfl
      · rfl
    symm
    rw [List.filter_eq_self]
    intro c hc
    obtain ⟨k, hk, hk9⟩ := h c hc
    rw [hk, hlo, hhi]
    simp [hk9]

/-- `float(v)` succeeds on `v` (no `TypeError`/`OverflowError`). -/
def coercible (v : PyVal) : Bool :=
  match floatOfVal v with
  | .ok _ => true
  | .error _ => false

theorem numVal_comp_float : numVal ∘ PyVal.float = id := by
  funext q
  rfl

theorem scanStats_map_float (qs : List ℚ) :
    scanStats (qs.map PyVal.float) =
      ⟨qs.length, listMin qs, listMax qs, !qs.isEmpty⟩ := by
  cases qs with
  | nil => rfl
  | cons q rest =>
    unfold scanStats
    rw [if_neg (by simp)]
    simp [List.map_map, numVal_comp_float, isFloat, numVal]

theorem coerceAll_ok (values : List PyVal) (h : ∀ v ∈ values, coercible v = true) :
    ∃ qs, coerceAll values = .ok qs := by
  induction values with
  | nil => exact ⟨[], rfl⟩
  | cons v rest ih =>
    have hv := h v (by simp)
    unfold coercible at hv
    cases hfv : floatOfVal v with
    | error e => rw [hfv] at hv; exact absurd hv (by simp)
    | ok q =>
      obtain ⟨qs, hqs⟩ := ih (fun w hw => h w (by simp [hw]))
      exact ⟨q :: qs, by simp only [coerceAll]; rw [hfv, hqs]⟩

theorem rne_nonneg {r : ℚ} (h : 0 ≤ r) : 0 ≤ rne r := by
  have hf : (0 : ℤ) ≤ ⌊r⌋ := Int.floor_nonneg.mpr h
  unfold rne
  split_ifs <;> omega

theorem rne_le_half (r : ℚ) : (rne r : ℚ) ≤ r + 1/2 := by
  have hfl := Int.floor_le r
  unfold rne
  split_ifs with h1 h2 h3
  · linarith
  · push_cast
    linarith
  · linarith
  · push_cast
    push_neg at h1 h2
    linarith

/-- Round-to-nearest never moves a value up by more than half an ulp:
the magnitude of `roundPrec p x` exceeds `|x|` by at most `2^(e-p)` where
`e = Int.log 2 |x|`. -/
theorem roundPrec_abs_le (p : ℕ) {x : ℚ} (hx : x ≠ 0) :
    |roundPrec p x| ≤ |x| + 2 ^ (Int.log 2 |x| - (p : ℤ)) := by
  have hxpos : 0 < |x| := abs_pos.mpr hx
  have hrpos : (0 : ℚ) < |x| * 2 ^ ((p : ℤ) - 1 - Int.log 2 |x|) := by positivity
  have hm : (0 : ℚ) ≤ (rne (|x| * 2 ^ ((p : ℤ) - 1 - Int.log 2 |x|)) : ℚ) := by
    exact_mod_cast rne_nonneg hrpos.le
  have hpow : (0 : ℚ) < 2 ^ (Int.log 2 |x| - (p : ℤ) + 1) := by positivity
  have hkey : (rne (|x| * 2 ^ ((p : ℤ) - 1 - Int.log 2 |x|)) : ℚ)
      * 2 ^ (Int.log 2 |x| - (p : ℤ) + 1) ≤ |x| + 2 ^ (Int.log 2 |x| - (p : ℤ)) := by
    have h1 := rne_le_half (|x| * 2 ^ ((p : ℤ) - 1 - Int.log 2 |x|))
    have h2 : (|x| * 2 ^ ((p : ℤ) - 1 - Int.log 2 |x|) + 1/2)
        * 2 ^ (Int.log 2 |x| - (p : ℤ) + 1)
        = |x| + 2 ^ (Int.log 2 |x| - (p : ℤ)) := by
      rw [add_mul]
      congr 1
      · rw [mul_assoc, ← zpow_add₀ (two_ne_zero (α := ℚ)),
          show ((p : ℤ) - 1 - Int.log 2 |x|) + (Int.log 2 |x| - (p : ℤ) + 1) = 0 by ring,
          zpow_zero, mul_one]
      · rw [show (1/2 : ℚ) = 2 ^ (-1 : ℤ) by norm_num,
          ← zpow_add₀ (two_ne_zero (α := ℚ)),
          show (-1 : ℤ) + (Int.log 2 |x| - (p : ℤ) + 1) = Int.log 2 |x| - (p : ℤ) by ring]
    calc (rne (|x| * 2 ^ ((p : ℤ) - 1 - Int.log 2 |x|)) : ℚ)
        * 2 ^ (Int.log 2 |x| - (p : ℤ) + 1)
        ≤ (|x| * 2 ^ ((p : ℤ) - 1 - Int.log 2 |x|) + 1/2)
            * 2 ^ (Int.log 2 |x| - (p : ℤ) + 1) :=
          mul_le_mul_of_nonneg_right h1 hpow.le
      _ = |x| + 2 ^ (Int.log 2 |x| - (p : ℤ)) := h2
  unfold roundPrec
  rw [if_neg hx]
  rcases lt_trichotomy x 0 with hneg | hzero | hpos
  · rw [if_pos hneg, abs_neg, abs_of_nonneg (mul_nonneg hm hpow.le)]
    exact hkey
  · exact absurd hzero hx
  · rw [if_neg (by push_neg; exact hpos.le), abs_of_nonneg (mul_nonneg hm hpow.le)]
    exact hkey

/-- A double within the source's `F32_MAX` guard bound casts to a *finite*
float32: the rounded magnitude stays at or below the largest finite float32
value.  (`F32_MAX` lies strictly below the overflow midpoint `2^128 - 2^103`,
so rounding cannot reach `2^128`.) -/
theorem roundPrec24_le_f32max {z : ℚ} (h : |z| ≤ F32_MAX) :
    |roundPrec 24 z| ≤ 2 ^ 128 - 2 ^ 104 := by
  rcases eq_or_ne z 0 with rfl | hz
  · rw [show roundPrec 24 (0 : ℚ) = 0 from by simp [roundPrec]]
    norm_num
  have hzlt : |z| < (2 : ℚ) ^ (128 : ℤ) := by
    calc |z| ≤ F32_MAX := h
      _ < (2 : ℚ) ^ (128 : ℤ) := by norm_num [F32_MAX]
  have hlog : Int.log 2 |z| < 128 :=
    (Int.lt_zpow_iff_log_lt (by norm_num) (abs_pos.mpr hz)).mp hzlt
  have hp2 : (2 : ℚ) ^ (Int.log 2 |z| - (24 : ℤ)) ≤ 2 ^ (103 : ℤ) :=
    zpow_le_zpow_right₀ one_le_two (by omega)
  have hlt : |roundPrec 24 z| < 2 ^ 128 := by
    calc |roundPrec 24 z| ≤ |z| + 2 ^ (Int.log 2 |z| - (24 : ℤ)) :=
          roundPrec_abs_le 24 hz
      _ ≤ F32_MAX + 2 ^ (103 : ℤ) := add_le_add h hp2
      _ < 2 ^ 128 := by norm_num [F32_MAX]
  exact rep24_bound (roundPrec_rep 24 z) hlt

theorem foldl_min_le (l : List ℚ) :
    ∀ a : ℚ, l.foldl min a ≤ a ∧ ∀ z ∈ l, l.foldl min a ≤ z := by
  induction l with
  | nil =>
    intro a
    exact ⟨le_refl a, by intro z hz; cases hz⟩
  | cons b t ih =>
    intro a
    simp only [List.foldl_cons]
    refine ⟨(ih (min a b)).1.trans (min_le_left a b), ?_⟩
    intro z hz
    rcases List.mem_cons.mp hz with rfl | hz2
    · exact (ih (min a z)).1.trans (min_le_right a z)
    · exact (ih (min a b)).2 z hz2

theorem foldl_max_le (l : List ℚ) :
    ∀ a : ℚ, a ≤ l.foldl max a ∧ ∀ z ∈ l, z ≤ l.foldl max a := by
  induction l with
  | nil =>
    intro a
    exact ⟨le_refl a, by intro z hz; cases hz⟩
  | cons b t ih =>
    intro a
    simp only [List.foldl_cons]
    refine ⟨(le_max_left a b).trans (ih (max a b)).1, ?_⟩
    intro z hz
    rcases List.mem_cons.mp hz with rfl | hz2
    · exact (le_max_right a z).trans (ih (max a z)).1
    · exact (ih (max a b)).2 z hz2

theorem listMin_le {l : List ℚ} {m z : ℚ} (hm : listMin l = some m) (hz : z ∈ l) :
    m ≤ z := by
  cases l with
  | nil => cases hm
  | cons a t =>
    simp only [listMin] at hm
    injection hm with hm2
    subst hm2
    rcases List.mem_cons.mp hz with rfl | hz2
    · exact (foldl_min_le t z).1
    · exact (foldl_min_le t a).2 z hz2

theorem le_listMax {l : List ℚ} {m z : ℚ} (hm : listMax l = some m) (hz : z ∈ l) :
    z ≤ m := by
  cases l with
  | nil => cases hm
  | cons a t =>
    simp only [listMax] at hm
    injection hm with hm2
    subst hm2
    rcases List.mem_cons.mp hz with rfl | hz2
    · exact (foldl_max_le t z).1
    · exact (foldl_max_le t a).2 z hz2

theorem f32RangeExceeded_false_inv {a b : ℚ}
    (h : f32RangeExceeded (some a) (some b) = false) :
    |a| ≤ F32_MAX ∧ |b| ≤ F32_MAX := by
  simp only [f32RangeExceeded] at h
  by_cases hb : |b| > F32_MAX
  · rw [if_pos hb] at h
    cases h
  · rw [if_neg hb] at h
    by_cases ha : |a| > F32_MAX
    · rw [if_pos ha] at h
      cases h
    · exact ⟨not_lt.mp ha, not_lt.mp hb⟩

/-! ## Structural lemmas about conversions and the selection loop -/

theorem tryConvert_int_code_complex {code : String} {lo hi : ℤ}
    (h : intCodeRange code = some (lo, hi)) :
    tryConvert code PyVal.complex = none := by
  unfold tryConvert
  rw [h]

theorem tryConvert_int_code_other {code : String} {lo hi : ℤ}
    (h : intCodeRange code = some (lo, hi)) (t : ℕ) :
    tryConvert code (PyVal.other t) = none := by
  unfold tryConvert
  rw [h]

theorem tryArray_int_id {code : String} {lo hi : ℤ}
    (h : intCodeRange code = some (lo, hi)) :
    ∀ {vs ws : List PyVal}, tryArray code vs = some ws →
      ws = vs ∧ ∀ v ∈ vs, ∃ n : ℤ, v = .int n ∧ lo ≤ n ∧ n ≤ hi := by
  intro vs
  induction vs with
  | nil =>
    intro ws hw
    simp only [tryArray] at hw
    cases hw
    exact ⟨rfl, by simp⟩
  | cons v rest ih =>
    intro ws hw
    simp only [tryArray] at hw
    cases hv : tryConvert code v with
    | none => rw [hv] at hw; cases hw
    | some w =>
      rw [hv] at hw
      cases hrest : tryArray code rest with
      | none => rw [hrest] at hw; cases hw
      | some ws2 =>
        rw [hrest] at hw
        simp only [Option.map_some] at hw
        obtain ⟨hws2, hall⟩ := ih hrest
        cases v with
        | int n =>
          rw [tryConvert_int_code _ _ _ h] at hv
          by_cases hin : lo ≤ n ∧ n ≤ hi
          · rw [if_pos hin] at hv
            cases hv
            cases hw
            refine ⟨by rw [hws2], ?_⟩
            intro u hu
            rcases List.mem_cons.mp hu with rfl | hu2
            · exact ⟨n, rfl, hin.1, hin.2⟩
            · exact hall u hu2
          · rw [if_neg hin] at hv; cases hv
        | float q => rw [tryConvert_int_code_float h] at hv; cases hv
        | complex => rw [tryConvert_int_code_complex h] at hv; cases hv
        | other t => rw [tryConvert_int_code_other h] at hv; cases hv

theorem tryArray_int_float_head {code : String} {lo hi : ℤ}
    (h : intCodeRange code = some (lo, hi)) (q : ℚ) (rest : List PyVal) :
    tryArray code (PyVal.float q :: rest) = none := by
  simp only [tryArray]
  rw [tryConvert_int_code_float h]

theorem tryConvert_f_of_coerce {v : PyVal} {z : ℚ} (h : floatOfVal v = .ok z) :
    tryConvert "f" v = some (.float (roundPrec 24 z)) := by
  cases v with
  | int n =>
    simp only [floatOfVal] at h
    by_cases hov : (2 : ℚ) ^ 1024 ≤ |roundPrec 53 (n : ℚ)|
    · rw [if_pos hov] at h; cases h
    · rw [if_neg hov] at h
      cases h
      unfold tryConvert
      rw [show intCodeRange "f" = none from rfl]
      simp only [show (("f" : String) = "f") = True by simp, if_true]
      rw [if_neg hov]
  | float q =>
    simp only [floatOfVal] at h
    cases h
    unfold tryConvert
    rw [show intCodeRange "f" = none from rfl]
    simp only [show (("f" : String) = "f") = True by simp, if_true]
  | complex => simp [floatOfVal] at h
  | other t => simp [floatOfVal] at h

theorem tryConvert_d_of_coerce {v : PyVal} {z : ℚ} (h : floatOfVal v = .ok z) :
    tryConvert "d" v = some (.float z) := by
  cases v with
  | int n =>
    simp only [floatOfVal] at h
    by_cases hov : (2 : ℚ) ^ 1024 ≤ |roundPrec 53 (n : ℚ)|
    · rw [if_pos hov] at h; cases h
    · rw [if_neg hov] at h
      cases h
      unfold tryConvert
      rw [show intCodeRange "d" = none from rfl]
      simp only [show (("d" : String) = "f") = False by simp, if_false,
        show (("d" : String) = "d") = True by simp, if_true]
      rw [if_neg hov]
  | float q =>
    simp only [floatOfVal] at h
    cases h
    unfold tryConvert
    rw [show intCodeRange "d" = none from rfl]
    simp only [show (("d" : String) = "f") = False by simp, if_false,
      show (("d" : String) = "d") = True by simp, if_true]
  | complex => simp [floatOfVal] at h
  | other t => simp [floatOfVal] at h

theorem coerceAll_cons_inv {v : PyVal} {rest : List PyVal} {zs : List ℚ}
    (h : coerceAll (v :: rest) = .ok zs) :
    ∃ z zs2, zs = z :: zs2 ∧ floatOfVal v = .ok z ∧ coerceAll rest = .ok zs2 := by
  simp only [coerceAll] at h
  cases hfv : floatOfVal v with
  | error e => rw [hfv] at h; cases h
  | ok z =>
    rw [hfv] at h
    cases hrest : coerceAll rest with
    | error e => rw [hrest] at h; cases h
    | ok zs2 =>
      rw [hrest] at h
      cases h
      exact ⟨z, zs2, rfl, rfl, rfl⟩

theorem coerceAll_elem :
    ∀ {values : List PyVal} {zs : List ℚ}, coerceAll values = .ok zs →
      ∀ w ∈ values, ∃ q, floatOfVal w = .ok q := by
  intro values
  induction values with
  | nil => intro zs _ w hw; cases hw
  | cons v rest ih =>
    intro zs h w hw
    obtain ⟨z, zs2, rfl, hfv, hrest⟩ := coerceAll_cons_inv h
    rcases List.mem_cons.mp hw with rfl | hw2
    · exact ⟨z, hfv⟩
    · exact ih hrest w hw2

theorem tryArray_d_eq :
    ∀ {values : List PyVal} {zs : List ℚ}, coerceAll values = .ok zs →
      tryArray "d" values = some (zs.map PyVal.float) := by
  intro values
  induction values with
  | nil =>
    intro zs h
    cases h
    rfl
  | cons v rest ih =>
    intro zs h
    obtain ⟨z, zs2, rfl, hfv, hrest⟩ := coerceAll_cons_inv h
    simp only [tryArray]
    rw [tryConvert_d_of_coerce hfv, ih hrest]
    rfl

theorem tryArray_f_eq :
    ∀ {values : List PyVal} {zs : List ℚ}, coerceAll values = .ok zs →
      tryArray "f" values = some (zs.map (fun z => PyVal.float (roundPrec 24 z))) := by
  intro values
  induction values with
  | nil =>
    intro zs h
    cases h
    rfl
  | cons v rest ih =>
    intro zs h
    obtain ⟨z, zs2, rfl, hfv, hrest⟩ := coerceAll_cons_inv h
    simp only [tryArray]
    rw [tryConvert_f_of_coerce hfv, ih hrest]
    rfl

theorem coerceAll_map_float {ys : List ℚ} (h : ∀ y ∈ ys, Rep 53 y) :
    coerceAll (ys.map PyVal.float) = .ok ys := by
  induction ys with
  | nil => rfl
  | cons y rest ih =>
    simp only [List.map_cons, coerceAll]
    rw [floatOfVal_float (h y (by simp)), ih (fun w hw => h w (by simp [hw]))]

/-- Shape invariant of every candidate list `select_array` manipulates: an
integer-code prefix followed by a float tail of `"f"` then `"d"`. -/
def CandShape (l : List String) : Prop :=
  ∃ I F, l = I ++ F ∧ (∀ c ∈ I, (intCodeRange c).isSome = true) ∧
    (F = [] ∨ F = ["f"] ∨ F = ["d"] ∨ F = ["f", "d"])

theorem candShape_filter {l : List String} (h : CandShape l) (g : String → Bool) :
    CandShape (l.filter g) := by
  obtain ⟨I, F, rfl, hI, hF⟩ := h
  refine ⟨I.filter g, F.filter g, List.filter_append I F,
    fun c hc => hI c (List.mem_of_mem_filter hc), ?_⟩
  rcases hF with rfl | rfl | rfl | rfl
  · simp
  · by_cases hf : g "f" = true <;> simp [List.filter, hf]
  · by_cases hd : g "d" = true <;> simp [List.filter, hd]
  · by_cases hf : g "f" = true <;> by_cases hd : g "d" = true <;>
      simp [List.filter, hf, hd]

theorem candShape_base (policy : Policy) (prefer_signed no_float : Bool) :
    CandShape
      ((match policy with
        | .balanced => ["b", "B", "h", "H", "i", "I", "q", "Q"]
        | .wide => ["i", "I", "q", "Q", "h", "H", "b", "B"]
        | .smallest =>
          if prefer_signed then ["b", "B", "h", "H", "i", "I", "q", "Q"]
          else ["B", "b", "H", "h", "I", "i", "Q", "q"]) ++
        (if no_float then [] else ["f", "d"])) := by
  refine ⟨_, _, rfl, ?_, ?_⟩
  · intro c hc
    cases policy <;> cases prefer_signed <;> simp at hc <;>
      rcases hc with rfl | rfl | rfl | rfl | rfl | rfl | rfl | rfl <;> rfl
  · cases no_float
    · right; right; right; rfl
    · left; rfl

theorem candShape_typeSequence (policy : Policy) (prefer_signed no_float : Bool)
    (min_type max_type : Option String) :
    CandShape (typeSequence policy prefer_signed no_float min_type max_type) := by
  unfold typeSequence srcBoundsFilter
  by_cases ht : (strTruthy min_type || strTruthy max_type) = true
  · rw [if_pos ht]
    exact candShape_filter (candShape_base policy prefer_signed no_float) _
  · rw [if_neg ht]
    exact candShape_base policy prefer_signed no_float

theorem candShape_afd (o : Opts) (st : ScanStats) : CandShape (afdCandidates o st) := by
  unfold afdCandidates
  by_cases hc : ((!o.allow_float_downgrade) && st.hasFloat &&
      f32RangeExceeded st.vmin st.vmax) = true
  · rw [if_pos hc]
    exact candShape_filter
      (candShape_typeSequence o.policy o.prefer_signed o.no_float o.min_type o.max_type) _
  · rw [if_neg hc]
    exact candShape_typeSequence o.policy o.prefer_signed o.no_float o.min_type o.max_type

theorem tryLoop_inv :
    ∀ {l : List String} {values : List PyVal} {hf : Bool} {mn mx : Option ℚ}
      {code : String} {stored : List PyVal},
      tryLoop l values hf mn mx = some (code, stored) →
      code ∈ l ∧ tryArray code values = some stored := by
  intro l
  induction l with
  | nil => intro values hf mn mx code stored h; cases h
  | cons c rest ih =>
    intro values hf mn mx code stored h
    simp only [tryLoop] at h
    split at h
    · obtain ⟨hmem, hta⟩ := ih h
      exact ⟨List.mem_cons_of_mem c hmem, hta⟩
    · cases hta : tryArray c values with
      | some a =>
        rw [hta] at h
        cases h
        exact ⟨List.mem_cons_self c rest, hta⟩
      | none =>
        rw [hta] at h
        obtain ⟨hmem, hta2⟩ := ih h
        exact ⟨List.mem_cons_of_mem c hmem, hta2⟩

theorem tryLoop_intSkip (I : List String)
    (hI : ∀ c ∈ I, (intCodeRange c).isSome = true) (F : List String)
    (q : ℚ) (rest : List PyVal) (hf : Bool) (mn mx : Option ℚ) :
    tryLoop (I ++ F) (PyVal.float q :: rest) hf mn mx =
      tryLoop F (PyVal.float q :: rest) hf mn mx := by
  induction I with
  | nil => rfl
  | cons c I2 ih =>
    have hc : (intCodeRange c).isSome = true := hI c (by simp)
    obtain ⟨⟨lo, hi⟩, hcr⟩ := Option.isSome_iff_exists.mp hc
    have hcf : ¬ (c = "f") := by
      rintro rfl
      rw [show intCodeRange "f" = none from rfl] at hcr
      cases hcr
    rw [List.cons_append]
    simp only [tryLoop]
    rw [if_neg (fun hskip => hcf hskip.2.2.1),
      tryArray_int_float_head hcr q rest]
    exact ih (fun w hw => hI w (by simp [hw]))

theorem foldl_max_mem (a : ℚ) (l : List ℚ) : l.foldl max a ∈ a :: l := by
  induction l generalizing a with
  | nil => simp
  | cons b t ih =>
    have h := ih (max a b)
    simp only [List.foldl_cons]
    rcases List.mem_cons.mp h with hm | hm
    · rcases max_choice a b with hab | hab
      · rw [hm, hab]
        exact List.mem_cons_self a (b :: t)
      · rw [hm, hab]
        exact List.mem_cons_of_mem a (List.mem_cons_self b t)
    · exact List.mem_cons_of_mem a (List.mem_cons_of_mem b hm)

theorem foldl_min_mem (a : ℚ) (l : List ℚ) : l.foldl min a ∈ a :: l := by
  induction l generalizing a with
  | nil => simp
  | cons b t ih =>
    have h := ih (min a b)
    simp only [List.foldl_cons]
    rcases List.mem_cons.mp h with hm | hm
    · rcases min_choice a b with hab | hab
      · rw [hm, hab]
        exact List.mem_cons_self a (b :: t)
      · rw [hm, hab]
        exact List.mem_cons_of_mem a (List.mem_cons_self b t)
    · exact List.mem_cons_of_mem a (List.mem_cons_of_mem b hm)

theorem listMax_mem {l : List ℚ} {m : ℚ} (h : listMax l = some m) : m ∈ l := by
  cases l with
  | nil => cases h
  | cons a t =>
    simp only [listMax] at h
    cases h
    exact foldl_max_mem a t

theorem listMin_mem {l : List ℚ} {m : ℚ} (h : listMin l = some m) : m ∈ l := by
  cases l with
  | nil => cases h
  | cons a t =>
    simp only [listMin] at h
    cases h
    exact foldl_min_mem a t

theorem strictFallback_error (candidates : List String) (values : List PyVal) :
    ∃ i v tc, strictFallback candidates values = .error (.selectionError i v tc) := by
  unfold strictFallback
  dsimp only
  cases hf : firstFailIdx (candidates.getLast?.getD "d") values 0 with
  | none => exact ⟨0, values.headI, _, rfl⟩
  | some p => exact ⟨p.1, p.2, _, rfl⟩

theorem coerceAll_rep53 :
    ∀ {values : List PyVal} {zs : List ℚ}, coerceAll values = .ok zs →
      ∀ z ∈ zs, Rep 53 z := by
  intro values
  induction values with
  | nil =>
    intro zs h z hz
    cases h
    cases hz
  | cons v rest ih =>
    intro zs h z hz
    obtain ⟨w, zs2, rfl, hfv, hrest⟩ := coerceAll_cons_inv h
    rcases List.mem_cons.mp hz with rfl | hz2
    · cases v with
      | int n =>
        simp only [floatOfVal] at hfv
        by_cases hov : (2 : ℚ) ^ 1024 ≤ |roundPrec 53 (n : ℚ)|
        · rw [if_pos hov] at hfv; cases hfv
        · rw [if_neg hov] at hfv
          cases hfv
          exact roundPrec_rep 53 (n : ℚ)
      | float q =>
        simp only [floatOfVal] at hfv
        cases hfv
        exact roundPrec_rep 53 q
      | complex => simp [floatOfVal] at hfv
      | other t => simp [floatOfVal] at hfv
    · exact ih hrest z hz2

/-- Inversion of a typed-buffer result of `select_array`: the input was
non-empty and numeric, the coercion succeeded, the reject-float branch was
not taken, and the candidate loop succeeded at `code`. -/
theorem selectArray_arr_inv {values : List PyVal} {o : Opts} {code : String}
    {stored : List PyVal} (h : selectArray values o = .ok (.arr code stored)) :
    ∃ zs, values.length ≠ 0 ∧ isAllNumeric values = true ∧ coerceAll values = .ok zs ∧
      ((scanStats (zs.map PyVal.float)).hasFloat && o.no_float) = false ∧
      tryLoop (afdCandidates o (scanStats (zs.map PyVal.float))) values
        (scanStats (zs.map PyVal.float)).hasFloat
        (scanStats (zs.map PyVal.float)).vmin
        (scanStats (zs.map PyVal.float)).vmax = some (code, stored) := by
  unfold selectArray at h
  by_cases hlen : values.length = 0
  · rw [if_pos hlen] at h
    cases h
  rw [if_neg hlen] at h
  by_cases hnum : isAllNumeric values = true
  · rw [if_neg (by rw [hnum]; simp)] at h
    cases hc : coerceAll values with
    | error e => rw [hc] at h; cases h
    | ok zs =>
      rw [hc] at h
      dsimp only at h
      by_cases hnf : ((scanStats (zs.map PyVal.float)).hasFloat && o.no_float) = true
      · rw [if_pos hnf] at h
        by_cases hstr : o.strict = true
        · rw [if_pos hstr] at h
          cases hfind : values.find? (fun v => isFloat v) with
          | some off => rw [hfind] at h; cases h
          | none => rw [hfind] at h; cases h
        · rw [if_neg hstr] at h
          cases h
      · rw [if_neg hnf] at h
        cases htl : tryLoop (afdCandidates o (scanStats (zs.map PyVal.float))) values
            (scanStats (zs.map PyVal.float)).hasFloat
            (scanStats (zs.map PyVal.float)).vmin
            (scanStats (zs.map PyVal.float)).vmax with
        | some p =>
          rw [htl] at h
          obtain ⟨c2, a2⟩ := p
          dsimp only at h
          injection h with h2
          injection h2 with h3 h4
          subst h3
          subst h4
          exact ⟨zs, hlen, hnum, rfl, by rw [Bool.not_eq_true] at hnf; exact hnf, htl⟩
        | none =>
          rw [htl] at h
          by_cases hstr : o.strict = true
          · rw [if_pos hstr] at h
            obtain ⟨i, v, tc, hsf⟩ := strictFallback_error
              (afdCandidates o (scanStats (zs.map PyVal.float))) values
            rw [hsf] at h
            cases h
          · rw [if_neg hstr] at h
            cases h
  · rw [if_pos (by rw [Bool.not_eq_true] at hnum; rw [hnum]; rfl)] at h
    cases h

/-- Classification of a typed-buffer result: the chosen code is an
integer code (and the buffer holds the inputs unchanged), or `"f"` (the
buffer holds the float32 roundings of the coerced values), or `"d"` (the
buffer holds the coerced doubles themselves). -/
theorem selectArray_arr_cases {values : List PyVal} {o : Opts} {code : String}
    {stored : List PyVal} (h : selectArray values o = .ok (.arr code stored)) :
    ∃ zs, coerceAll values = .ok zs ∧ values.length ≠ 0 ∧
      ((∃ lo hi, intCodeRange code = some (lo, hi) ∧ stored = values) ∨
        (code = "f" ∧ stored = zs.map (fun z => PyVal.float (roundPrec 24 z))) ∨
        (code = "d" ∧ stored = zs.map PyVal.float)) := by
  obtain ⟨zs, hlen, hnum, hc, hnf, htl⟩ := selectArray_arr_inv h
  obtain ⟨hmem, hta⟩ := tryLoop_inv htl
  obtain ⟨I, F, heq, hI, hF⟩ := candShape_afd o (scanStats (zs.map PyVal.float))
  rw [heq] at hmem
  rcases List.mem_append.mp hmem with hmI | hmF
  · obtain ⟨⟨lo, hi⟩, hcr⟩ := Option.isSome_iff_exists.mp (hI code hmI)
    obtain ⟨hid, _⟩ := tryArray_int_id hcr hta
    exact ⟨zs, hc, hlen, Or.inl ⟨lo, hi, hcr, hid⟩⟩
  · have hfd : code = "f" ∨ code = "d" := by
      rcases hF with rfl | rfl | rfl | rfl <;> simp at hmF <;> tauto
    rcases hfd with rfl | rfl
    · have hf := tryArray_f_eq hc
      rw [hta] at hf
      injection hf with hf2
      exact ⟨zs, hc, hlen, Or.inr (Or.inl ⟨rfl, hf2⟩)⟩
    · have hd := tryArray_d_eq hc
      rw [hta] at hd
      injection hd with hd2
      exact ⟨zs, hc, hlen, Or.inr (Or.inr ⟨rfl, hd2⟩)⟩

/-- Within-buffer idempotence: rebuilding a typed buffer from its own
stored values succeeds and reproduces them unchanged. -/
theorem tryArray_stored_roundtrip {values : List PyVal} {o : Opts} {code : String}
    {stored : List PyVal} (h : selectArray values o = .ok (.arr code stored)) :
    tryArray code stored = some stored := by
  obtain ⟨zs, hc, hlen, hcases⟩ := selectArray_arr_cases h
  obtain ⟨zs2, hlen2, hnum2, hc2, hnf2, htl2⟩ := selectArray_arr_inv h
  obtain ⟨hmem2, hta2⟩ := tryLoop_inv htl2
  rcases hcases with ⟨lo, hi, hcr, rfl⟩ | ⟨rfl, rfl⟩ | ⟨rfl, rfl⟩
  · exact hta2
  · -- float32 buffer: each stored value is a fixed point of the cast
    have hys : ∀ y ∈ zs.map (fun z => roundPrec 24 z), Rep 53 y := by
      intro y hy
      obtain ⟨z, hz, rfl⟩ := List.mem_map.mp hy
      exact rep_mono (by norm_num) (roundPrec_rep 24 z)
    have hco : coerceAll ((zs.map (fun z => roundPrec 24 z)).map PyVal.float) =
        .ok (zs.map (fun z => roundPrec 24 z)) := coerceAll_map_float hys
    have hmm : (zs.map (fun z => roundPrec 24 z)).map PyVal.float =
        zs.map (fun z => PyVal.float (roundPrec 24 z)) := by
      rw [List.map_map]
      rfl
    rw [hmm] at hco
    have hres := tryArray_f_eq hco
    have hmm2 : (zs.map (fun z => roundPrec 24 z)).map
        (fun z => PyVal.float (roundPrec 24 z)) =
        zs.map (fun z => PyVal.float (roundPrec 24 z)) := by
      rw [List.map_map]
      apply List.map_congr_left
      intro z hz
      simp only [Function.comp]
      rw [roundPrec_fixed (by norm_num) (roundPrec_rep 24 z)]
    rw [hmm2] at hres
    exact hres
  · -- float64 buffer: the stored doubles re-coerce to themselves
    have hco : coerceAll (zs.map PyVal.float) = .ok zs :=
      coerceAll_map_float (coerceAll_rep53 hc)
    exact tryArray_d_eq hco

/-! ### Step lemmas for concrete evaluation (instantiated at literals, so
the kernel never reduces large numerals) -/

theorem coerceAll_nil : coerceAll [] = .ok [] := rfl

theorem coerceAll_cons_ok {v : PyVal} {z : ℚ} {rest : List PyVal} {zs : List ℚ}
    (h1 : floatOfVal v = .ok z) (h2 : coerceAll rest = .ok zs) :
    coerceAll (v :: rest) = .ok (z :: zs) := by
  simp only [coerceAll]
  rw [h1, h2]

theorem tryArray_nil (code : String) : tryArray code [] = some [] := rfl

theorem tryArray_cons_some {code : String} {v w : PyVal} {rest ws : List PyVal}
    (h1 : tryConvert code v = some w) (h2 : tryArray code rest = some ws) :
    tryArray code (v :: rest) = some (w :: ws) := by
  simp only [tryArray]
  rw [h1, h2]
  rfl

theorem tryArray_cons_fail {code : String} {v : PyVal} {rest : List PyVal}
    (h1 : tryConvert code v = none) : tryArray code (v :: rest) = none := by
  simp only [tryArray]
  rw [h1]

theorem tryLoop_step_fail {code : String} {rest : List String} {values : List PyVal}
    {hf : Bool} {mn mx : Option ℚ}
    (hskip : ¬ ((code = "f" ∨ code = "d") ∧ hf = true ∧ code = "f"
      ∧ f32RangeExceeded mn mx = true))
    (h : tryArray code values = none) :
    tryLoop (code :: rest) values hf mn mx = tryLoop rest values hf mn mx := by
  simp only [tryLoop]
  rw [if_neg hskip, h]

theorem tryLoop_step_hit {code : String} {rest : List String} {values a : List PyVal}
    {hf : Bool} {mn mx : Option ℚ}
    (hskip : ¬ ((code = "f" ∨ code = "d") ∧ hf = true ∧ code = "f"
      ∧ f32RangeExceeded mn mx = true))
    (h : tryArray code values = some a) :
    tryLoop (code :: rest) values hf mn mx = some (code, a) := by
  simp only [tryLoop]
  rw [if_neg hskip, h]

theorem tryLoop_step_skip {code : String} {rest : List String} {values : List PyVal}
    {hf : Bool} {mn mx : Option ℚ}
    (hskip : (code = "f" ∨ code = "d") ∧ hf = true ∧ code = "f"
      ∧ f32RangeExceeded mn mx = true) :
    tryLoop (code :: rest) values hf mn mx = tryLoop rest values hf mn mx := by
  simp only [tryLoop]
  rw [if_pos hskip]

/-! ### Concrete rounding computations for the C1 counterexample -/

theorem intLog_2p64p1 : Int.log 2 (18446744073709551617 : ℚ) = 64 := by
  have hx : (0 : ℚ) < 18446744073709551617 := by norm_num
  have h1 : (64 : ℤ) ≤ Int.log 2 (18446744073709551617 : ℚ) := by
    rw [← Int.zpow_le_iff_le_log (by norm_num) hx]
    norm_num
  have h2 : Int.log 2 (18446744073709551617 : ℚ) < 65 := by
    rw [← Int.lt_zpow_iff_log_lt (by norm_num) hx]
    norm_num
  omega

theorem rne_2p64p1 : rne ((18446744073709551617 : ℚ) / 4096) = 4503599627370496 := by
  have hval : (18446744073709551617 : ℚ) / 4096 = 4503599627370496 + 1/4096 := by
    norm_num
  have hfl : ⌊(18446744073709551617 : ℚ) / 4096⌋ = 4503599627370496 := by
    rw [hval, Int.floor_eq_iff]
    constructor
    · norm_num
    · norm_num
  unfold rne
  rw [hfl, hval]
  norm_num

/-- `float(2^64 + 1)` rounds to `2^64`: the doubled-rounded value differs
from the original integer. -/
theorem rp53_2p64p1 : roundPrec 53 (18446744073709551617 : ℚ) = 18446744073709551616 := by
  unfold roundPrec
  rw [if_neg (by norm_num), if_neg (by norm_num)]
  rw [abs_of_pos (by norm_num), intLog_2p64p1]
  norm_num [rne_2p64p1]

theorem rp24_2p64 : roundPrec 24 (18446744073709551616 : ℚ) = 18446744073709551616 :=
  roundPrec_fixed (by norm_num) ⟨1, 64, by norm_num⟩

/-! ## Claim theorems -/

/-- C6: the candidate sequencer returns exactly the specified ordered
list — for policy `smallest` the eight integer codes width-ascending with
signed-before-unsigned within each width iff `prefer_signed` (else
unsigned-before-signed); for `balanced` the fixed order b,B,h,H,i,I,q,Q
ignoring `prefer_signed`; for `wide` the fixed order i,I,q,Q,h,H,b,B;
float32 then float64 appended last unless `no_float`; and the
`min_type`/`max_type` bounds filter the result by position in the
catalog's canonical order, unrecognised bound codes being ignored, always
yielding a (possibly empty) list. -/
theorem c6_type_sequence (policy : Policy) (prefer_signed no_float : Bool)
    (min_type max_type : Option String) :
    typeSequence policy prefer_signed no_float min_type max_type =
      typeSequenceSpec policy prefer_signed no_float min_type max_type := by
  cases policy <;> cases prefer_signed <;> cases no_float <;>
    · apply srcBoundsFilter_eq_spec
      intro c hc
      fin_cases hc <;> simp [canonIdx]

/-- C10: if `chunk_size` is zero or negative, `stream_array` yields no
chunks at all, even on a non-empty source — the first window is empty so
the stream terminates immediately, discarding every input item instead of
raising or emitting them. -/
theorem c10_stream_empty (chunkSize : ℤ) (input : List PyVal) (o : Opts)
    (h : chunkSize ≤ 0) : streamArray chunkSize input o = .ok [] := by
  unfold streamArray
  rw [Int.toNat_of_nonpos h]
  simp

/-- C10 witness: `chunk_size = 0` on the non-empty input `[1]` yields no
chunks. -/
theorem c10_witness : streamArray 0 [PyVal.int 1] defaultOpts = .ok [] :=
  c10_stream_empty 0 [PyVal.int 1] defaultOpts (by norm_num)

/-- C8: a sequence containing at least one non-numeric element is returned
by `select_array` unchanged in contents and order under every option
combination, no encoding being attempted, and `analyze_array` reports
reason `non-numeric` with typecode, min and max all `None` and the
original sequence as value. -/
theorem c8_non_numeric (values : List PyVal) (o : Opts)
    (h : values.any (fun v => !(isNumber v)) = true) :
    selectArray values o = .ok (.list values) ∧
      analyzeArray values o =
        .ok ⟨.list values, none, values.length, none, none, "non-numeric"⟩ := by
  obtain ⟨v, hv, hnv⟩ := List.any_eq_true.mp h
  rw [Bool.not_eq_true'] at hnv
  have hne : values.length ≠ 0 := by
    cases values with
    | nil => cases hv
    | cons a rest => simp
  have hnum : isAllNumeric values = false := by
    unfold isAllNumeric
    by_contra hall
    rw [Bool.not_eq_false] at hall
    exact absurd (List.all_eq_true.mp hall v hv) (by simp [hnv])
  constructor
  · unfold selectArray
    rw [if_neg hne, if_pos (by rw [hnum]; rfl)]
  · unfold analyzeArray
    rw [if_neg hne, if_pos (by rw [hnum]; rfl)]

/-- C8 witness: a singleton non-numeric input. -/
theorem c8_witness :
    selectArray [PyVal.other 0] defaultOpts = .ok (.list [PyVal.other 0]) ∧
      analyzeArray [PyVal.other 0] defaultOpts =
        .ok ⟨.list [PyVal.other 0], none, 1, none, none, "non-numeric"⟩ :=
  c8_non_numeric [PyVal.other 0] defaultOpts (by decide)

/-- C4 counterexample: a complex number passes the numeric classification,
yet `select_array` on `[1j]` raises a `TypeError` (from the `float(v)`
coercion) even though `strict` is false — refuting the claim that
non-strict selection never raises on inputs that pass the numeric
classification. -/
theorem c4_counterexample :
    selectArray [PyVal.complex] defaultOpts = .error .typeError ∧
      isAllNumeric [PyVal.complex] = true ∧
      defaultOpts.strict = false := by
  refine ⟨?_, rfl, rfl⟩
  unfold selectArray
  rw [if_neg (by simp), if_neg (by simp [isAllNumeric, isNumber])]
  rfl

/-- C4 (amended): with `strict=False`, `select_array` never raises
provided the input is non-numeric (early identity return) or every element
survives the `float(v)` coercion; a complex element or an overflowing
integer (the only coercion failures) raises `TypeError`/`OverflowError`
despite passing the numeric classification. -/
theorem c4_amended (values : List PyVal) (o : Opts) (hstrict : o.strict = false)
    (h : isAllNumeric values = false ∨ ∀ v ∈ values, coercible v = true) :
    ∃ out, selectArray values o = .ok out := by
  by_cases hlen : values.length = 0
  · exact ⟨.list [], by unfold selectArray; rw [if_pos hlen]⟩
  by_cases hnum : isAllNumeric values = false
  · exact ⟨.list values, by unfold selectArray; rw [if_neg hlen, if_pos (by rw [hnum]; rfl)]⟩
  have hcoer : ∀ v ∈ values, coercible v = true := by
    rcases h with h | h
    · exact absurd h hnum
    · exact h
  obtain ⟨qs, hqs⟩ := coerceAll_ok values hcoer
  rw [Bool.not_eq_false] at hnum
  unfold selectArray
  rw [if_neg hlen, if_neg (by rw [hnum]; simp), hqs]
  dsimp only
  by_cases hnf : ((scanStats (qs.map PyVal.float)).hasFloat && o.no_float) = true
  · rw [if_pos hnf, if_neg (by rw [hstrict]; exact Bool.false_ne_true)]
    exact ⟨.list values, rfl⟩
  · rw [if_neg hnf]
    cases htl : tryLoop (afdCandidates o (scanStats (qs.map PyVal.float))) values
        (scanStats (qs.map PyVal.float)).hasFloat
        (scanStats (qs.map PyVal.float)).vmin
        (scanStats (qs.map PyVal.float)).vmax with
    | some pair => exact ⟨.arr pair.1 pair.2, rfl⟩
    | none => exact ⟨.list values, by simp [hstrict]⟩

/-- C4 witness: a small all-integer input with the default (non-strict)
options selects without raising. -/
theorem c4_witness : ∃ out, selectArray [PyVal.int 1] defaultOpts = .ok out :=
  c4_amended [PyVal.int 1] defaultOpts rfl
    (Or.inr (by
      intro v hv
      rw [List.mem_singleton] at hv
      subst hv
      simp [coercible, floatOfVal_int 1 (show |(1:ℤ)| ≤ 2 ^ 53 by norm_num)]))

/-- C2 (code bug): `has_float` is computed over the float-coerced copy of
the input, so it is `true` for every non-empty numeric input.  On the
all-integer input `[1, 2, 3]` with `no_float` set, the selector therefore
takes the reject-float branch and returns the generic list instead of a
typed integer buffer, `analyze_array` reports `no-fitting-type` (never
`int`), and with `strict` it even raises `StopIteration` because no actual
float element exists to report. -/
theorem c2_has_float_bug :
    selectArray [.int 1, .int 2, .int 3] { defaultOpts with no_float := true } =
      .ok (.list [.int 1, .int 2, .int 3]) ∧
    analyzeArray [.int 1, .int 2, .int 3] { defaultOpts with no_float := true } =
      .ok ⟨.list [.int 1, .int 2, .int 3], none, 3, some 1, some 3, "no-fitting-type"⟩ ∧
    selectArray [.int 1, .int 2, .int 3] { defaultOpts with no_float := true, strict := true } =
      .error .stopIteration ∧
    (scanStats [PyVal.float 1, PyVal.float 2, PyVal.float 3]).hasFloat = true := by
  have f1 : floatOfVal (.int 1) = .ok 1 := by
    simpa using floatOfVal_int 1 (by norm_num)
  have f2 : floatOfVal (.int 2) = .ok 2 := by
    simpa using floatOfVal_int 2 (by norm_num)
  have f3 : floatOfVal (.int 3) = .ok 3 := by
    simpa using floatOfVal_int 3 (by norm_num)
  have hc : coerceAll [.int 1, .int 2, .int 3] = .ok [1, 2, 3] := by
    simp only [coerceAll]
    rw [f1, f2, f3]
  have hst : scanStats ([(1 : ℚ), 2, 3].map PyVal.float) = ⟨3, some 1, some 3, true⟩ := by
    rw [scanStats_map_float]
    norm_num [listMin, listMax, List.foldl]
  have hsel : selectArray [.int 1, .int 2, .int 3] { defaultOpts with no_float := true } =
      .ok (.list [.int 1, .int 2, .int 3]) := by
    unfold selectArray
    rw [if_neg (by simp), if_neg (by simp [isAllNumeric, isNumber]), hc]
    dsimp only
    rw [hst]
    simp [defaultOpts]
  refine ⟨hsel, ?_, ?_, rfl⟩
  · unfold analyzeArray
    rw [if_neg (by simp), if_neg (by simp [isAllNumeric, isNumber]), hc]
    dsimp only
    rw [hst, hsel]
  · unfold selectArray
    rw [if_neg (by simp), if_neg (by simp [isAllNumeric, isNumber]), hc]
    dsimp only
    rw [hst]
    simp [defaultOpts, List.find?, isFloat]

/-- C3 (code bug): on `[1, 2, 3.5]` with `no_float=True, strict=True` the
code raises a `SelectionError` carrying the first floating value `3.5` and
the message "integers only", but the index it carries is the hardcoded
`0`, not the element's actual position `2` claimed by the specification
(the error message therefore misattributes the value `3.5` to index 0,
where the input holds `1`). -/
theorem c3_index_bug :
    selectArray [.int 1, .int 2, .float (7/2)]
        { defaultOpts with no_float := true, strict := true } =
      .error (.selectionError 0 (.float (7/2)) "integers only") ∧
    [PyVal.int 1, PyVal.int 2, PyVal.float (7/2)].findIdx isFloat = 2 := by
  have f1 : floatOfVal (.int 1) = .ok 1 := by
    simpa using floatOfVal_int 1 (by norm_num)
  have f2 : floatOfVal (.int 2) = .ok 2 := by
    simpa using floatOfVal_int 2 (by norm_num)
  have f3 : floatOfVal (.float (7/2)) = .ok (7/2) :=
    floatOfVal_float ⟨7, -1, by norm_num⟩
  have hc : coerceAll [.int 1, .int 2, .float (7/2)] = .ok [1, 2, 7/2] := by
    simp only [coerceAll]
    rw [f1, f2, f3]
  have hst : scanStats ([(1 : ℚ), 2, 7/2].map PyVal.float) = ⟨3, some 1, some (7/2), true⟩ := by
    rw [scanStats_map_float]
    norm_num [listMin, listMax, List.foldl]
  constructor
  · unfold selectArray
    rw [if_neg (by simp), if_neg (by simp [isAllNumeric, isNumber]), hc]
    dsimp only
    rw [hst]
    simp [defaultOpts, List.find?, isFloat]
  · rfl

/-! ### Concrete evaluation helpers shared by witnesses -/

theorem selectEval_int5 : selectArray [.int 5] defaultOpts = .ok (.arr "B" [.int 5]) := by
  have f5 : floatOfVal (.int 5) = .ok 5 := by
    simpa using floatOfVal_int 5 (by norm_num)
  have hc : coerceAll [.int 5] = .ok [5] := by
    simp only [coerceAll]
    rw [f5]
  have hst : scanStats ([(5 : ℚ)].map PyVal.float) = ⟨1, some 5, some 5, true⟩ := by
    rw [scanStats_map_float]
    norm_num [listMin, listMax, List.foldl]
  have hafd : afdCandidates defaultOpts ⟨1, some 5, some 5, true⟩ =
      ["B", "b", "H", "h", "I", "i", "Q", "q", "f", "d"] := by
    unfold afdCandidates
    rw [if_neg (by simp [defaultOpts])]
    rfl
  have htb : tryArray "B" [.int 5] = some [.int 5] := by
    simp only [tryArray]
    rw [tryConvert_int_code "B" 0 255 rfl, if_pos (by norm_num)]
    rfl
  have htl : tryLoop ["B", "b", "H", "h", "I", "i", "Q", "q", "f", "d"]
      [.int 5] true (some 5) (some 5) = some ("B", [.int 5]) := by
    simp only [tryLoop]
    rw [if_neg (by simp), htb]
  unfold selectArray
  rw [if_neg (by simp), if_neg (by simp [isAllNumeric, isNumber]), hc]
  dsimp only
  rw [hst]
  rw [if_neg (by simp [defaultOpts])]
  dsimp only
  rw [hafd, htl]

/-- C1 counterexample: the integer `2^64 + 1` overflows every integer
encoding, yet `select_array` returns a float-32 typed buffer holding
`2^64`, a value different from the original — the exact-round-trip
invariant fails for float encodings. -/
theorem c1_counterexample :
    selectArray [.int 18446744073709551617] defaultOpts =
      .ok (.arr "f" [.float 18446744073709551616]) ∧
    (∀ code ∈ ["b", "B", "h", "H", "i", "I", "q", "Q"],
      tryArray code [PyVal.int 18446744073709551617] = none) ∧
    ((18446744073709551616 : ℚ) ≠ ((18446744073709551617 : ℤ) : ℚ)) := by
  have hcast : ((18446744073709551617 : ℤ) : ℚ) = 18446744073709551617 := by norm_num
  have hb : tryArray "b" [PyVal.int 18446744073709551617] = none :=
    tryArray_cons_fail (by rw [tryConvert_int_code "b" (-128) 127 rfl,
      if_neg (by norm_num)])
  have hB : tryArray "B" [PyVal.int 18446744073709551617] = none :=
    tryArray_cons_fail (by rw [tryConvert_int_code "B" 0 255 rfl,
      if_neg (by norm_num)])
  have hh : tryArray "h" [PyVal.int 18446744073709551617] = none :=
    tryArray_cons_fail (by rw [tryConvert_int_code "h" (-32768) 32767 rfl,
      if_neg (by norm_num)])
  have hH : tryArray "H" [PyVal.int 18446744073709551617] = none :=
    tryArray_cons_fail (by rw [tryConvert_int_code "H" 0 65535 rfl,
      if_neg (by norm_num)])
  have hi : tryArray "i" [PyVal.int 18446744073709551617] = none :=
    tryArray_cons_fail (by rw [tryConvert_int_code "i" (-2147483648) 2147483647 rfl,
      if_neg (by norm_num)])
  have hI : tryArray "I" [PyVal.int 18446744073709551617] = none :=
    tryArray_cons_fail (by rw [tryConvert_int_code "I" 0 4294967295 rfl,
      if_neg (by norm_num)])
  have hq : tryArray "q" [PyVal.int 18446744073709551617] = none :=
    tryArray_cons_fail (by rw [tryConvert_int_code "q" (-9223372036854775808)
      9223372036854775807 rfl, if_neg (by norm_num)])
  have hQ : tryArray "Q" [PyVal.int 18446744073709551617] = none :=
    tryArray_cons_fail (by rw [tryConvert_int_code "Q" 0 18446744073709551615 rfl,
      if_neg (by norm_num)])
  refine ⟨?_, ?_, ?_⟩
  · have fov : floatOfVal (.int 18446744073709551617) = .ok 18446744073709551616 := by
      simp only [floatOfVal]
      rw [hcast, rp53_2p64p1, if_neg (by norm_num)]
    have hc : coerceAll [.int 18446744073709551617] = .ok [18446744073709551616] :=
      coerceAll_cons_ok fov coerceAll_nil
    have hst : scanStats ([(18446744073709551616 : ℚ)].map PyVal.float) =
        ⟨1, some 18446744073709551616, some 18446744073709551616, true⟩ := by
      rw [scanStats_map_float]
      norm_num [listMin, listMax, List.foldl]
    have hguard : f32RangeExceeded (some (18446744073709551616 : ℚ))
        (some (18446744073709551616 : ℚ)) = false :=
      f32RangeExceeded_false (by norm_num [F32_MAX]) (by norm_num [F32_MAX])
    have hafd : afdCandidates defaultOpts
        ⟨1, some 18446744073709551616, some 18446744073709551616, true⟩ =
        ["B", "b", "H", "h", "I", "i", "Q", "q", "f", "d"] := by
      unfold afdCandidates
      rw [if_neg (by simp [defaultOpts])]
      rfl
    have hconv : tryConvert "f" (PyVal.int 18446744073709551617) =
        some (.float 18446744073709551616) := by
      unfold tryConvert
      rw [show intCodeRange "f" = none from rfl]
      simp only [show (("f" : String) = "f") = True by simp, if_true]
      rw [hcast, rp53_2p64p1, if_neg (by norm_num), rp24_2p64]
    have htf : tryArray "f" [PyVal.int 18446744073709551617] =
        some [.float 18446744073709551616] :=
      tryArray_cons_some hconv (tryArray_nil "f")
    have htl : tryLoop ["B", "b", "H", "h", "I", "i", "Q", "q", "f", "d"]
        [PyVal.int 18446744073709551617] true
        (some 18446744073709551616) (some 18446744073709551616) =
        some ("f", [.float 18446744073709551616]) := by
      rw [tryLoop_step_fail (by simp) hB, tryLoop_step_fail (by simp) hb,
        tryLoop_step_fail (by simp) hH, tryLoop_step_fail (by simp) hh,
        tryLoop_step_fail (by simp) hI, tryLoop_step_fail (by simp) hi,
        tryLoop_step_fail (by simp) hQ, tryLoop_step_fail (by simp) hq,
        tryLoop_step_hit (by simp [hguard]) htf]
    unfold selectArray
    rw [if_neg (by simp), if_neg (by simp [isAllNumeric, isNumber]), hc]
    dsimp only
    rw [hst]
    rw [if_neg (by simp [defaultOpts])]
    dsimp only
    rw [hafd, htl]
  · intro code hcode
    fin_cases hcode
    · exact hb
    · exact hB
    · exact hh
    · exact hH
    · exact hi
    · exact hI
    · exact hq
    · exact hQ
  · rw [hcast]
    norm_num

/-- C1 (amended): a typed buffer round-trips exactly for the integer
encodings — an integer buffer is returned only when every input value is
an `int` within the encoding's range, stored unchanged; for the float
encodings the stored values are the inputs rounded to that encoding's
precision, so re-encoding the *stored* values is lossless, but (per the
counterexample) an integer too large for every integer encoding can be
returned in a float-32 buffer with a value different from the original. -/
theorem c1_roundtrip (values : List PyVal) (o : Opts) (code : String)
    (stored : List PyVal) (h : selectArray values o = .ok (.arr code stored)) :
    ((intCodeRange code).isSome = true →
      stored = values ∧ ∀ v ∈ values, ∃ n : ℤ, v = .int n) ∧
    tryArray code stored = some stored := by
  constructor
  · intro hint
    obtain ⟨zs2, hlen2, hnum2, hc2, hnf2, htl2⟩ := selectArray_arr_inv h
    obtain ⟨hmem2, hta2⟩ := tryLoop_inv htl2
    obtain ⟨⟨lo, hi⟩, hcr⟩ := Option.isSome_iff_exists.mp hint
    obtain ⟨hid, hall⟩ := tryArray_int_id hcr hta2
    exact ⟨hid, fun v hv => by obtain ⟨n, hn, _, _⟩ := hall v hv; exact ⟨n, hn⟩⟩
  · exact tryArray_stored_roundtrip h

/-- C1 witness: on `[5]` the selected buffer is the 1-byte unsigned one,
holds the input unchanged, and re-encoding its stored values is lossless. -/
theorem c1_witness :
    (([PyVal.int 5] : List PyVal) = [PyVal.int 5] ∧
      ∀ v ∈ [PyVal.int 5], ∃ n : ℤ, v = PyVal.int n) ∧
    tryArray "B" [PyVal.int 5] = some [PyVal.int 5] := by
  have h := c1_roundtrip [PyVal.int 5] defaultOpts "B" [PyVal.int 5] selectEval_int5
  exact ⟨h.1 rfl, h.2⟩

theorem selectEval_int12 :
    selectArray [.int 1, .int 2] defaultOpts = .ok (.arr "B" [.int 1, .int 2]) := by
  have f1 : floatOfVal (.int 1) = .ok 1 := by
    simpa using floatOfVal_int 1 (by norm_num)
  have f2 : floatOfVal (.int 2) = .ok 2 := by
    simpa using floatOfVal_int 2 (by norm_num)
  have hc : coerceAll [.int 1, .int 2] = .ok [1, 2] :=
    coerceAll_cons_ok f1 (coerceAll_cons_ok f2 coerceAll_nil)
  have hst : scanStats ([(1 : ℚ), 2].map PyVal.float) = ⟨2, some 1, some 2, true⟩ := by
    rw [scanStats_map_float]
    norm_num [listMin, listMax, List.foldl]
  have hafd : afdCandidates defaultOpts ⟨2, some 1, some 2, true⟩ =
      ["B", "b", "H", "h", "I", "i", "Q", "q", "f", "d"] := by
    unfold afdCandidates
    rw [if_neg (by simp [defaultOpts])]
    rfl
  have htb : tryArray "B" [.int 1, .int 2] = some [.int 1, .int 2] :=
    tryArray_cons_some (by rw [tryConvert_int_code "B" 0 255 rfl, if_pos (by norm_num)])
      (tryArray_cons_some (by rw [tryConvert_int_code "B" 0 255 rfl, if_pos (by norm_num)])
        (tryArray_nil "B"))
  have htl : tryLoop ["B", "b", "H", "h", "I", "i", "Q", "q", "f", "d"]
      [.int 1, .int 2] true (some 1) (some 2) = some ("B", [.int 1, .int 2]) :=
    tryLoop_step_hit (by simp) htb
  unfold selectArray
  rw [if_neg (by simp), if_neg (by simp [isAllNumeric, isNumber]), hc]
  dsimp only
  rw [hst]
  rw [if_neg (by simp [defaultOpts])]
  dsimp only
  rw [hafd, htl]

theorem emitChunk_arr {k : Option String} {w : List PyVal} {c : String} {xs : List PyVal}
    (h : emitChunk k w = .arr c xs) : k = some c ∧ tryArray c w = some xs := by
  cases k with
  | none => simp [emitChunk] at h
  | some c2 =>
    simp only [emitChunk] at h
    cases hta : tryArray c2 w with
    | none => rw [hta] at h; cases h
    | some a =>
      rw [hta] at h
      injection h with h1 h2
      subst h1
      subst h2
      exact ⟨rfl, hta⟩

/-- C7: streaming with `chunk_size=2` on `[1,2,300,4]` emits the 1-byte
unsigned typed buffer `[1,2]` for the first window and the generic
sequence `[300,4]` for the second (300 exceeds 255); the first chunk is
not revised; and in general every window after the first is validated
against exactly the committed encoding — emitted as a typed buffer of
that code on success and as a generic sequence on failure — so every
typed chunk after the first carries the committed code, never a
re-widened or re-narrowed one. -/
theorem c7_stream_commitment :
    streamArray 2 [.int 1, .int 2, .int 300, .int 4] defaultOpts =
      .ok [.arr "B" [.int 1, .int 2], .list [.int 300, .int 4]] ∧
    (∀ (cs : ℤ) (input : List PyVal) (o : Opts) (sel : SelectOut) (rest : List SelectOut),
      streamArray cs input o = .ok (sel :: rest) →
      rest = (chunkWindows cs.toNat (input.drop cs.toNat)).map (emitChunk (chunkCode sel)) ∧
        ∀ c xs, SelectOut.arr c xs ∈ rest → chunkCode sel = some c) := by
  constructor
  · have hfail300 : tryArray "B" [.int 300, .int 4] = none :=
      tryArray_cons_fail (by rw [tryConvert_int_code "B" 0 255 rfl, if_neg (by norm_num)])
    have hwin : chunkWindows (2 : ℤ).toNat
        ([PyVal.int 1, PyVal.int 2, PyVal.int 300, PyVal.int 4].drop (2 : ℤ).toNat) =
        [[PyVal.int 300, PyVal.int 4]] := by
      simp [chunkWindows]
    unfold streamArray
    rw [if_neg (by simp)]
    rw [show ([PyVal.int 1, PyVal.int 2, PyVal.int 300, PyVal.int 4].take (2 : ℤ).toNat)
        = [PyVal.int 1, PyVal.int 2] by simp, selectEval_int12]
    rw [hwin]
    simp only [List.map_cons, List.map_nil, emitChunk, chunkCode]
    rw [hfail300]
  · intro cs input o sel rest h
    unfold streamArray at h
    by_cases hfirst : input.take cs.toNat = []
    · rw [if_pos hfirst] at h
      cases h
    rw [if_neg hfirst] at h
    cases hsel : selectArray (input.take cs.toNat) o with
    | error e => rw [hsel] at h; cases h
    | ok selected =>
      rw [hsel] at h
      injection h with h2
      injection h2 with h3 h4
      subst h3
      refine ⟨h4.symm, ?_⟩
      intro c xs hmem
      rw [h4.symm] at hmem
      obtain ⟨w, hw, hemit⟩ := List.mem_map.mp hmem
      exact (emitChunk_arr hemit).1

/-- C7 witness: the general window property instantiated on the concrete
stream `[1,2,300,4]` with `chunk_size=2`. -/
theorem c7_witness :
    ([SelectOut.list [PyVal.int 300, PyVal.int 4]] : List SelectOut) =
      (chunkWindows (2 : ℤ).toNat
        ([PyVal.int 1, PyVal.int 2, PyVal.int 300, PyVal.int 4].drop (2 : ℤ).toNat)).map
        (emitChunk (chunkCode (SelectOut.arr "B" [PyVal.int 1, PyVal.int 2]))) ∧
    (∀ c xs, SelectOut.arr c xs ∈ ([SelectOut.list [PyVal.int 300, PyVal.int 4]] : List SelectOut) →
      chunkCode (SelectOut.arr "B" [PyVal.int 1, PyVal.int 2]) = some c) :=
  c7_stream_commitment.2 2 [.int 1, .int 2, .int 300, .int 4] defaultOpts
    (.arr "B" [.int 1, .int 2]) [.list [.int 300, .int 4]]
    c7_stream_commitment.1

theorem firstFailIdx_none_iff (code : String) :
    ∀ (l : List PyVal) (n : ℕ),
      firstFailIdx code l n = none ↔ ∀ w ∈ l, tryArray code [w] ≠ none := by
  intro l
  induction l with
  | nil => intro n; simp [firstFailIdx]
  | cons v rest ih =>
    intro n
    simp only [firstFailIdx]
    by_cases hv : tryArray code [v] = none
    · rw [if_pos hv]
      constructor
      · intro hcon; cases hcon
      · intro hall
        exact absurd hv (hall v (by simp))
    · rw [if_neg hv]
      rw [ih (n + 1)]
      constructor
      · intro hall w hw
        rcases List.mem_cons.mp hw with rfl | hw2
        · exact hv
        · exact hall w hw2
      · intro hall w hw
        exact hall w (by simp [hw])

theorem firstFailIdx_some (code : String) :
    ∀ (l : List PyVal) (n i : ℕ) (v : PyVal),
      firstFailIdx code l n = some (i, v) →
      ∃ j, i = n + j ∧ l[j]? = some v ∧ tryArray code [v] = none ∧
        ∀ k vk, k < j → l[k]? = some vk → tryArray code [vk] ≠ none := by
  intro l
  induction l with
  | nil => intro n i v h; cases h
  | cons w rest ih =>
    intro n i v h
    simp only [firstFailIdx] at h
    by_cases hw : tryArray code [w] = none
    · rw [if_pos hw] at h
      injection h with h2
      injection h2 with h3 h4
      subst h3
      subst h4
      exact ⟨0, by omega, by simp, hw, by omega⟩
    · rw [if_neg hw] at h
      obtain ⟨j, hij, hget, hfail, hmin⟩ := ih (n + 1) i v h
      refine ⟨j + 1, by omega, by simpa using hget, hfail, ?_⟩
      intro k vk hk hgetk
      cases k with
      | zero =>
        simp at hgetk
        rw [← hgetk]
        exact hw
      | succ k2 =>
        have hk2 : k2 < j := by omega
        exact hmin k2 vk hk2 (by simpa using hgetk)

/-- C5 (amended): on total fallback (every candidate failed or was
skipped) with `no_float` unset, `select_array` under `strict=False`
returns the generic sequence; under `strict=True` it raises a
`SelectionError` whose expected encoding is the *last* candidate of the
filtered list (or `"d"` when that list is empty): when some value fails
that encoding's singleton construction, the error carries the first such
value together with its index; otherwise it reports index `0` and the
first value even though that value is representable.  The third conjunct
pins down when the second case occurs: the float encodings accept every
pre-coerced value individually (the float32 and float64 casts are total,
an overflowing `"f"` cast silently storing an infinity), so whenever the
reference encoding is `"f"` or `"d"` — in particular whenever the
candidate list is empty — no violator exists and the final index-`0`
raise fires. -/
theorem c5_strict_fallback (values : List PyVal) (o : Opts) (zs : List ℚ)
    (hc : coerceAll values = .ok zs) (hne : values.length ≠ 0)
    (hnum : isAllNumeric values = true) (hnf : o.no_float = false)
    (hloop : tryLoop (afdCandidates o (scanStats (zs.map PyVal.float))) values
      (scanStats (zs.map PyVal.float)).hasFloat
      (scanStats (zs.map PyVal.float)).vmin
      (scanStats (zs.map PyVal.float)).vmax = none) :
    (o.strict = false → selectArray values o = .ok (.list values)) ∧
    (o.strict = true →
      ∃ i v, selectArray values o = .error (.selectionError i v
          ((afdCandidates o (scanStats (zs.map PyVal.float))).getLast?.getD "d")) ∧
        ((values[i]? = some v ∧
            tryArray ((afdCandidates o (scanStats (zs.map PyVal.float))).getLast?.getD "d")
              [v] = none ∧
            ∀ j vj, j < i → values[j]? = some vj →
              tryArray ((afdCandidates o (scanStats (zs.map PyVal.float))).getLast?.getD "d")
                [vj] ≠ none) ∨
          (i = 0 ∧ values.head? = some v ∧
            ∀ w ∈ values,
              tryArray ((afdCandidates o (scanStats (zs.map PyVal.float))).getLast?.getD "d")
                [w] ≠ none))) ∧
    (((afdCandidates o (scanStats (zs.map PyVal.float))).getLast?.getD "d" = "f" ∨
        (afdCandidates o (scanStats (zs.map PyVal.float))).getLast?.getD "d" = "d") →
      ∀ w ∈ values,
        tryArray ((afdCandidates o (scanStats (zs.map PyVal.float))).getLast?.getD "d")
          [w] ≠ none) := by
  have hsel : ∀ hs : Bool, o.strict = hs →
      selectArray values o =
        (if hs = true
          then strictFallback (afdCandidates o (scanStats (zs.map PyVal.float))) values
          else .ok (.list values)) := by
    intro hs hhs
    unfold selectArray
    rw [if_neg hne, if_neg (by rw [hnum]; simp), hc]
    dsimp only
    rw [if_neg (by rw [hnf]; simp), hloop, hhs]
  refine ⟨?_, ?_, ?_⟩
  · intro hs
    rw [hsel false hs]
    rfl
  · intro hs
    rw [hsel true hs]
    simp only [if_true]
    unfold strictFallback
    dsimp only
    cases hf : firstFailIdx
        ((afdCandidates o (scanStats (zs.map PyVal.float))).getLast?.getD "d") values 0 with
    | some p =>
      obtain ⟨j, hij, hget, hfail, hmin⟩ :=
        firstFailIdx_some _ values 0 p.1 p.2 (by rw [hf])
      refine ⟨p.1, p.2, rfl, Or.inl ⟨?_, hfail, ?_⟩⟩
      · rw [show p.1 = j by omega]
        exact hget
      · intro k vk hk hgetk
        exact hmin k vk (by omega) hgetk
    | none =>
      refine ⟨0, values.headI, rfl, Or.inr ⟨rfl, ?_, ?_⟩⟩
      · cases values with
        | nil => exact absurd rfl hne
        | cons a rest => rfl
      · exact (firstFailIdx_none_iff _ values 0).mp hf
  · intro hL w hw
    obtain ⟨q, hq⟩ := coerceAll_elem hc w hw
    rcases hL with hL | hL <;> rw [hL]
    · intro hcon
      rw [tryArray_cons_some (tryConvert_f_of_coerce hq) (tryArray_nil "f")] at hcon
      cases hcon
    · intro hcon
      rw [tryArray_cons_some (tryConvert_d_of_coerce hq) (tryArray_nil "d")] at hcon
      cases hcon

/-- C5 counterexamples to the claim's "identifies the first value that
cannot be represented": (1) with bounds `min_type="Q"`, `max_type="b"` the
filtered candidate list is empty; on `[1]` with `strict=True` the code
raises `SelectionError(0, 1, "d")`, yet `1` *is* representable in the
fallback encoding `"d"`.  (2) The same final raise is reached with a
*nonempty* candidate list ending in `"f"`: on `[2.0, 2.0^130]` with
`max_type="f"`, `strict=True`, every integer candidate fails on the float
elements, `"f"` is skipped by the magnitude guard, and the per-index scan
finds no violator because the float32 cast is total — the raised
`SelectionError(0, 2.0, "f")` names the representable first value. -/
theorem c5_counterexample :
    (selectArray [.int 1]
        { defaultOpts with min_type := some "Q", max_type := some "b", strict := true } =
      .error (.selectionError 0 (.int 1) "d") ∧
    tryArray "d" [PyVal.int 1] = some [.float 1] ∧
    typeSequence .smallest false false (some "Q") (some "b") = []) ∧
    (selectArray [.float 2, .float (2 ^ 130)]
        { defaultOpts with max_type := some "f", strict := true } =
      .error (.selectionError 0 (.float 2) "f") ∧
    tryArray "f" [PyVal.float 2] = some [.float 2] ∧
    typeSequence .smallest false false none (some "f") =
      ["B", "b", "H", "h", "I", "i", "Q", "q", "f"]) := by
  have f1 : floatOfVal (.int 1) = .ok 1 := by
    simpa using floatOfVal_int 1 (by norm_num)
  have hc : coerceAll [.int 1] = .ok [1] := coerceAll_cons_ok f1 coerceAll_nil
  have hst : scanStats ([(1 : ℚ)].map PyVal.float) = ⟨1, some 1, some 1, true⟩ := by
    rw [scanStats_map_float]
    norm_num [listMin, listMax, List.foldl]
  have hts : typeSequence .smallest false false (some "Q") (some "b") = [] := by
    simp [typeSequence, srcBoundsFilter, strTruthy, canonIdx]
  have hd : tryArray "d" [PyVal.int 1] = some [.float 1] :=
    tryArray_cons_some (by simpa using tryConvert_d_int (show |(1 : ℤ)| ≤ 2 ^ 53 by norm_num))
      (tryArray_nil "d")
  have hafd : afdCandidates
      { defaultOpts with min_type := some "Q", max_type := some "b", strict := true }
      ⟨1, some 1, some 1, true⟩ = [] := by
    unfold afdCandidates
    rw [if_neg (by simp [defaultOpts])]
    exact hts
  have f2v : floatOfVal (.float 2) = .ok 2 :=
    floatOfVal_float ⟨1, 1, by norm_num, by norm_num⟩
  have fbig : floatOfVal (.float (2 ^ 130)) = .ok (2 ^ 130) :=
    floatOfVal_float ⟨1, 130, by norm_num, by norm_num⟩
  have hc2 : coerceAll [PyVal.float 2, PyVal.float (2 ^ 130)] = .ok [2, 2 ^ 130] :=
    coerceAll_cons_ok f2v (coerceAll_cons_ok fbig coerceAll_nil)
  have hst2 : scanStats ([(2 : ℚ), 2 ^ 130].map PyVal.float) =
      ⟨2, some 2, some (2 ^ 130), true⟩ := by
    rw [scanStats_map_float]
    norm_num [listMin, listMax, List.foldl]
  have hts2 : typeSequence .smallest false false none (some "f") =
      ["B", "b", "H", "h", "I", "i", "Q", "q", "f"] := by
    simp [typeSequence, srcBoundsFilter, strTruthy, canonIdx]
  have hafd2 : afdCandidates { defaultOpts with max_type := some "f", strict := true }
      ⟨2, some 2, some (2 ^ 130), true⟩ =
      ["B", "b", "H", "h", "I", "i", "Q", "q", "f"] := by
    unfold afdCandidates
    rw [if_neg (by simp [defaultOpts])]
    exact hts2
  have hB2 := tryArray_int_float_head (show intCodeRange "B" = some (0, 255) from rfl)
    2 [PyVal.float (2 ^ 130)]
  have hb2 := tryArray_int_float_head (show intCodeRange "b" = some (-128, 127) from rfl)
    2 [PyVal.float (2 ^ 130)]
  have hH2 := tryArray_int_float_head (show intCodeRange "H" = some (0, 65535) from rfl)
    2 [PyVal.float (2 ^ 130)]
  have hh2 := tryArray_int_float_head (show intCodeRange "h" = some (-32768, 32767) from rfl)
    2 [PyVal.float (2 ^ 130)]
  have hI2 := tryArray_int_float_head
    (show intCodeRange "I" = some (0, 4294967295) from rfl) 2 [PyVal.float (2 ^ 130)]
  have hi2 := tryArray_int_float_head
    (show intCodeRange "i" = some (-2147483648, 2147483647) from rfl)
    2 [PyVal.float (2 ^ 130)]
  have hQ2 := tryArray_int_float_head
    (show intCodeRange "Q" = some (0, 18446744073709551615) from rfl)
    2 [PyVal.float (2 ^ 130)]
  have hq2 := tryArray_int_float_head
    (show intCodeRange "q" = some (-9223372036854775808, 9223372036854775807) from rfl)
    2 [PyVal.float (2 ^ 130)]
  have hguard2 : f32RangeExceeded (some (2 : ℚ)) (some ((2 : ℚ) ^ 130)) = true := by
    simp only [f32RangeExceeded]
    rw [if_pos (by rw [abs_of_pos (by positivity)]; norm_num [F32_MAX])]
  have htf2 : tryArray "f" [PyVal.float 2] = some [PyVal.float 2] :=
    tryArray_cons_some (tryConvert_f_float ⟨1, 1, by norm_num, by norm_num⟩)
      (tryArray_nil "f")
  have htfbig : tryArray "f" [PyVal.float (2 ^ 130)] = some [PyVal.float (2 ^ 130)] :=
    tryArray_cons_some (tryConvert_f_float ⟨1, 130, by norm_num, by norm_num⟩)
      (tryArray_nil "f")
  have htl2x : tryLoop ["B", "b", "H", "h", "I", "i", "Q", "q", "f"]
      [PyVal.float 2, PyVal.float (2 ^ 130)] true (some 2) (some (2 ^ 130)) = none := by
    rw [tryLoop_step_fail (by simp) hB2, tryLoop_step_fail (by simp) hb2,
      tryLoop_step_fail (by simp) hH2, tryLoop_step_fail (by simp) hh2,
      tryLoop_step_fail (by simp) hI2, tryLoop_step_fail (by simp) hi2,
      tryLoop_step_fail (by simp) hQ2, tryLoop_step_fail (by simp) hq2,
      tryLoop_step_skip ⟨Or.inl rfl, rfl, rfl, hguard2⟩]
    rfl
  have hffi : firstFailIdx "f" [PyVal.float 2, PyVal.float (2 ^ 130)] 0 = none := by
    simp only [firstFailIdx]
    rw [if_neg (by simp [htf2]), if_neg (by simp [htfbig])]
  refine ⟨⟨?_, hd, hts⟩, ⟨?_, htf2, hts2⟩⟩
  · unfold selectArray
    rw [if_neg (by simp), if_neg (by simp [isAllNumeric, isNumber]), hc]
    dsimp only
    rw [hst]
    rw [if_neg (by simp [defaultOpts])]
    dsimp only
    rw [hafd]
    simp only [tryLoop]
    rw [if_pos (by simp [defaultOpts])]
    simp only [strictFallback, firstFailIdx]
    rw [if_neg (by simp [hd])]
    rfl
  · unfold selectArray
    rw [if_neg (by simp), if_neg (by simp [isAllNumeric, isNumber]), hc2]
    dsimp only
    rw [hst2]
    rw [if_neg (by simp [defaultOpts])]
    dsimp only
    rw [hafd2, htl2x]
    dsimp only
    rw [if_pos (by simp [defaultOpts])]
    unfold strictFallback
    dsimp only
    rw [show ((["B", "b", "H", "h", "I", "i", "Q", "q", "f"] : List String).getLast?.getD "d")
      = "f" from rfl]
    rw [hffi]
    rfl

/-- C5 witness: on `[300]` with the candidates bounded to the 1-byte
codes and `strict=True`, the violation reports the first (and only) value
`300`, which indeed fails the last candidate `"b"`. -/
theorem c5_witness :
    ∃ i v, selectArray [PyVal.int 300]
        { defaultOpts with max_type := some "B", strict := true } =
      .error (.selectionError i v
        ((afdCandidates { defaultOpts with max_type := some "B", strict := true }
          (scanStats ([(300 : ℚ)].map PyVal.float))).getLast?.getD "d")) ∧
      (([PyVal.int 300][i]? = some v ∧
          tryArray ((afdCandidates { defaultOpts with max_type := some "B", strict := true }
            (scanStats ([(300 : ℚ)].map PyVal.float))).getLast?.getD "d") [v] = none ∧
          ∀ j vj, j < i → [PyVal.int 300][j]? = some vj →
            tryArray ((afdCandidates { defaultOpts with max_type := some "B", strict := true }
              (scanStats ([(300 : ℚ)].map PyVal.float))).getLast?.getD "d") [vj] ≠ none) ∨
        (i = 0 ∧ [PyVal.int 300].head? = some v ∧
          ∀ w ∈ [PyVal.int 300],
            tryArray ((afdCandidates { defaultOpts with max_type := some "B", strict := true }
              (scanStats ([(300 : ℚ)].map PyVal.float))).getLast?.getD "d") [w] ≠ none)) := by
  have f300 : floatOfVal (.int 300) = .ok 300 := by
    simpa using floatOfVal_int 300 (by norm_num)
  have hc : coerceAll [PyVal.int 300] = .ok [300] := coerceAll_cons_ok f300 coerceAll_nil
  have hst : scanStats ([(300 : ℚ)].map PyVal.float) = ⟨1, some 300, some 300, true⟩ := by
    rw [scanStats_map_float]
    norm_num [listMin, listMax, List.foldl]
  have hafd : afdCandidates { defaultOpts with max_type := some "B", strict := true }
      ⟨1, some 300, some 300, true⟩ = ["B", "b"] := by
    unfold afdCandidates
    rw [if_neg (by simp [defaultOpts])]
    simp [typeSequence, srcBoundsFilter, strTruthy, canonIdx, defaultOpts]
  have hB300 : tryArray "B" [PyVal.int 300] = none :=
    tryArray_cons_fail (by rw [tryConvert_int_code "B" 0 255 rfl, if_neg (by norm_num)])
  have hb300 : tryArray "b" [PyVal.int 300] = none :=
    tryArray_cons_fail (by rw [tryConvert_int_code "b" (-128) 127 rfl, if_neg (by norm_num)])
  have hloop : tryLoop (afdCandidates { defaultOpts with max_type := some "B", strict := true }
      (scanStats ([(300 : ℚ)].map PyVal.float))) [PyVal.int 300]
      (scanStats ([(300 : ℚ)].map PyVal.float)).hasFloat
      (scanStats ([(300 : ℚ)].map PyVal.float)).vmin
      (scanStats ([(300 : ℚ)].map PyVal.float)).vmax = none := by
    rw [hst, hafd]
    rw [tryLoop_step_fail (by simp) hB300, tryLoop_step_fail (by simp) hb300]
    rfl
  exact (c5_strict_fallback [PyVal.int 300]
    { defaultOpts with max_type := some "B", strict := true } [300] hc (by simp)
    (by simp [isAllNumeric, isNumber]) rfl hloop).2.1 rfl

/-! ### Support for idempotence (C9) -/

theorem coerceAll_length :
    ∀ {values : List PyVal} {zs : List ℚ}, coerceAll values = .ok zs →
      zs.length = values.length := by
  intro values
  induction values with
  | nil => intro zs h; cases h; rfl
  | cons v rest ih =>
    intro zs h
    obtain ⟨z, zs2, rfl, hfv, hrest⟩ := coerceAll_cons_inv h
    simp [ih hrest]

theorem isAllNumeric_map_float (ys : List ℚ) :
    isAllNumeric (ys.map PyVal.float) = true := by
  induction ys with
  | nil => rfl
  | cons y rest ih => simp [isAllNumeric, isNumber]

theorem scanStats_map_float_ne {ys : List ℚ} (h : ys ≠ []) :
    scanStats (ys.map PyVal.float) = ⟨ys.length, listMin ys, listMax ys, true⟩ := by
  rw [scanStats_map_float]
  cases ys with
  | nil => exact absurd rfl h
  | cons a t => rfl

theorem f32RangeExceeded_of_bounds {ys : List ℚ} (h : ∀ y ∈ ys, |y| ≤ F32_MAX) :
    f32RangeExceeded (listMin ys) (listMax ys) = false := by
  cases hys : ys with
  | nil => rfl
  | cons a t =>
    have hmin : ∀ m, listMin (a :: t) = some m → |m| ≤ F32_MAX := by
      intro m hm
      exact h m (by rw [hys]; exact listMin_mem hm)
    have hmax : ∀ m, listMax (a :: t) = some m → |m| ≤ F32_MAX := by
      intro m hm
      exact h m (by rw [hys]; exact listMax_mem hm)
    exact f32RangeExceeded_false (hmin _ rfl) (hmax _ rfl)

/-- If the candidate loop run on a nonempty (hence `has_float`) scan
returns an `"f"` buffer, the float32 magnitude guard did not trip: the
loop's skip test would otherwise have jumped over `"f"`. -/
theorem tryLoop_f_guard :
    ∀ {l : List String} {values a : List PyVal} {mn mx : Option ℚ},
      tryLoop l values true mn mx = some ("f", a) →
      f32RangeExceeded mn mx = false := by
  intro l
  induction l with
  | nil => intro values a mn mx h; cases h
  | cons c rest ih =>
    intro values a mn mx h
    by_cases hskip : (c = "f" ∨ c = "d") ∧ (true : Bool) = true ∧ c = "f"
        ∧ f32RangeExceeded mn mx = true
    · rw [tryLoop_step_skip hskip] at h
      exact ih h
    · cases hta : tryArray c values with
      | some a2 =>
        rw [tryLoop_step_hit hskip hta] at h
        injection h with h2
        injection h2 with h3 h4
        subst h3
        cases hg : f32RangeExceeded mn mx with
        | false => rfl
        | true => exact absurd ⟨Or.inl rfl, rfl, rfl, hg⟩ hskip
      | none =>
        rw [tryLoop_step_fail hskip hta] at h
        exact ih h

theorem tryLoop_append_inv :
    ∀ (I : List String) {F : List String} {values a : List PyVal} {hf : Bool}
      {mn mx : Option ℚ} {code : String},
      tryLoop (I ++ F) values hf mn mx = some (code, a) →
      code ∈ I ∨ tryLoop F values hf mn mx = some (code, a) := by
  intro I
  induction I with
  | nil => intro F values a hf mn mx code h; exact Or.inr h
  | cons c I2 ih =>
    intro F values a hf mn mx code h
    rw [List.cons_append] at h
    simp only [tryLoop] at h
    split at h
    · rcases ih h with hm | ht
      · exact Or.inl (by simp [hm])
      · exact Or.inr ht
    · cases hta : tryArray c values with
      | some a2 =>
        rw [hta] at h
        injection h with h2
        injection h2 with h3 h4
        subst h3
        exact Or.inl (by simp)
      | none =>
        rw [hta] at h
        rcases ih h with hm | ht
        · exact Or.inl (by simp [hm])
        · exact Or.inr ht

theorem afd_unfiltered_of_f_mem {o : Opts} {st : ScanStats}
    (h : "f" ∈ afdCandidates o st) :
    afdCandidates o st =
      typeSequence o.policy o.prefer_signed o.no_float o.min_type o.max_type := by
  unfold afdCandidates at h ⊢
  by_cases hcond : ((!o.allow_float_downgrade) && st.hasFloat &&
      f32RangeExceeded st.vmin st.vmax) = true
  · rw [if_pos hcond] at h
    have := List.of_mem_filter h
    simp at this
  · rw [if_neg hcond]

theorem tryLoop_cons_fail_of {c : String} {rest : List String} {values a : List PyVal}
    {hf : Bool} {mn mx : Option ℚ} {code : String}
    (h : tryLoop (c :: rest) values hf mn mx = some (code, a)) (hne : code ≠ c)
    (hns : ¬ ((c = "f" ∨ c = "d") ∧ hf = true ∧ c = "f"
      ∧ f32RangeExceeded mn mx = true)) :
    tryArray c values = none := by
  cases hta : tryArray c values with
  | some a2 =>
    rw [tryLoop_step_hit hns hta] at h
    injection h with h2
    injection h2 with h3 h4
    exact absurd h3.symm hne
  | none => rfl

/-- C9: idempotence of selection.  Whenever `select_array` returns a typed
buffer, re-running `select_array` with the same options on the buffer's
materialized values returns the same typed buffer: the same encoding code is
chosen and the stored values are reproduced unchanged.  Integer buffers store
the original values, so the rerun is literally the same call; float buffers
store doubles (resp. float-32 roundings) that re-coerce to themselves, produce
the same scan statistics regime, and are accepted by the same code of the
candidate sequence (any earlier integer candidate fails on a float head, and
the `"f"`-skip guard evaluates the same way on both runs). -/
theorem c9_idempotent (values : List PyVal) (o : Opts) (code : String)
    (stored : List PyVal)
    (h : selectArray values o = .ok (.arr code stored)) :
    selectArray stored o = .ok (.arr code stored) := by
  obtain ⟨zs, hco, hlenv, hcases⟩ := selectArray_arr_cases h
  obtain ⟨zs2, hlen2, hnum2, hco2, hnf2, htl2⟩ := selectArray_arr_inv h
  rw [hco] at hco2
  injection hco2 with e
  subst e
  have hzs_ne : zs ≠ [] := by
    intro hz
    exact hlen2 (by rw [← coerceAll_length hco, hz]; rfl)
  have hnf0 : o.no_float = false := by
    rw [scanStats_map_float_ne hzs_ne] at hnf2
    simpa using hnf2
  rcases hcases with ⟨lo, hi, hcr, rfl⟩ | ⟨rfl, hstf⟩ | ⟨rfl, hstd⟩
  · -- integer buffer: the stored values are the original values
    exact h
  · -- float-32 buffer
    have htaf : tryArray "f" stored = some stored := tryArray_stored_roundtrip h
    have hrep : ∀ y ∈ zs.map (fun z => roundPrec 24 z), Rep 53 y := by
      intro y hy
      obtain ⟨z, hz, rfl⟩ := List.mem_map.mp hy
      exact rep_mono (by norm_num) (roundPrec_rep 24 z)
    have hst1 := scanStats_map_float_ne hzs_ne
    rw [hst1] at htl2
    dsimp only at htl2
    have hguard1 : f32RangeExceeded (listMin zs) (listMax zs) = false :=
      tryLoop_f_guard htl2
    have hzbnd : ∀ z ∈ zs, |z| ≤ F32_MAX := by
      cases zs with
      | nil => exact absurd rfl hzs_ne
      | cons z0 zt =>
        rw [show listMin (z0 :: zt) = some (zt.foldl min z0) from rfl,
          show listMax (z0 :: zt) = some (zt.foldl max z0) from rfl] at hguard1
        obtain ⟨hmn, hmx⟩ := f32RangeExceeded_false_inv hguard1
        intro z hz
        have hm1 : listMin (z0 :: zt) = some (zt.foldl min z0) := rfl
        have hm2 : listMax (z0 :: zt) = some (zt.foldl max z0) := rfl
        have h1 : zt.foldl min z0 ≤ z := listMin_le hm1 hz
        have h2 : z ≤ zt.foldl max z0 := le_listMax hm2 hz
        have hmn2 := abs_le.mp hmn
        have hmx2 := abs_le.mp hmx
        rw [abs_le]
        exact ⟨by linarith [hmn2.1], by linarith [hmx2.2]⟩
    have hbnd : ∀ y ∈ zs.map (fun z => roundPrec 24 z), |y| ≤ F32_MAX := by
      intro y hy
      obtain ⟨z, hz, rfl⟩ := List.mem_map.mp hy
      calc |roundPrec 24 z| ≤ 2 ^ 128 - 2 ^ 104 := roundPrec24_le_f32max (hzbnd z hz)
        _ ≤ F32_MAX := by norm_num [F32_MAX]
    have hseq : stored = (zs.map (fun z => roundPrec 24 z)).map PyVal.float := by
      rw [List.map_map]
      exact hstf
    have hco3 : coerceAll stored = .ok (zs.map (fun z => roundPrec 24 z)) := by
      rw [hseq]
      exact coerceAll_map_float hrep
    have hys_ne : zs.map (fun z => roundPrec 24 z) ≠ [] := by
      cases zs with
      | nil => exact absurd rfl hzs_ne
      | cons a t => simp
    have hst3 := scanStats_map_float_ne hys_ne
    have hguard : f32RangeExceeded (listMin (zs.map (fun z => roundPrec 24 z)))
        (listMax (zs.map (fun z => roundPrec 24 z))) = false :=
      f32RangeExceeded_of_bounds hbnd
    have hmem2 := (tryLoop_inv htl2).1
    have hcand1 := afd_unfiltered_of_f_mem hmem2
    rcases candShape_typeSequence o.policy o.prefer_signed o.no_float o.min_type
      o.max_type with ⟨I, F, hIF, hI, hF⟩
    rw [hcand1, hIF] at hmem2
    have hfF : "f" ∈ F := by
      rcases List.mem_append.mp hmem2 with hfi | hff
      · have hx := hI "f" hfi
        simp [intCodeRange] at hx
      · exact hff
    have hFf : F = ["f"] ∨ F = ["f", "d"] := by
      rcases hF with rfl | rfl | rfl | rfl
      · cases hfF
      · exact Or.inl rfl
      · simp at hfF
      · exact Or.inr rfl
    have hcand2 : afdCandidates o ⟨(zs.map (fun z => roundPrec 24 z)).length,
        listMin (zs.map (fun z => roundPrec 24 z)),
        listMax (zs.map (fun z => roundPrec 24 z)), true⟩ = I ++ F := by
      rw [← hIF]
      unfold afdCandidates
      rw [if_neg (by dsimp only; rw [hguard]; simp)]
    have hlen3 : stored.length ≠ 0 := by
      rw [hseq]
      cases zs with
      | nil => exact absurd rfl hzs_ne
      | cons a t => simp
    have hnum3 : isAllNumeric stored = true := by
      rw [hseq]
      exact isAllNumeric_map_float _
    have hloop : tryLoop (I ++ F) stored true
        (listMin (zs.map (fun z => roundPrec 24 z)))
        (listMax (zs.map (fun z => roundPrec 24 z))) = some ("f", stored) := by
      rcases hFf with rfl | rfl
      · cases zs with
        | nil => exact absurd rfl hzs_ne
        | cons z0 zt =>
          rw [hstf] at htaf ⊢
          simp only [List.map_cons] at htaf hguard ⊢
          rw [tryLoop_intSkip I hI]
          exact tryLoop_step_hit (by rw [hguard]; simp) htaf
      · cases zs with
        | nil => exact absurd rfl hzs_ne
        | cons z0 zt =>
          rw [hstf] at htaf ⊢
          simp only [List.map_cons] at htaf hguard ⊢
          rw [tryLoop_intSkip I hI]
          exact tryLoop_step_hit (by rw [hguard]; simp) htaf
    unfold selectArray
    rw [if_neg hlen3, if_neg (by rw [hnum3]; simp), hco3]
    dsimp only
    rw [hst3]
    rw [if_neg (by rw [hnf0]; simp)]
    dsimp only
    rw [hcand2, hloop]
  · -- float-64 buffer
    have htaf : tryArray "d" stored = some stored := tryArray_stored_roundtrip h
    have hco3 : coerceAll stored = .ok zs := by
      rw [hstd]
      exact coerceAll_map_float (coerceAll_rep53 hco)
    have hst3 := scanStats_map_float_ne hzs_ne
    rw [hst3] at htl2
    dsimp only at htl2
    rcases candShape_afd o ⟨zs.length, listMin zs, listMax zs, true⟩ with
      ⟨I, F, hIF, hI, hF⟩
    rw [hIF] at htl2
    have hFtl : tryLoop F values true (listMin zs) (listMax zs)
        = some ("d", stored) := by
      rcases tryLoop_append_inv I htl2 with hin | ht
      · have hx := hI "d" hin
        simp [intCodeRange] at hx
      · exact ht
    have hdF : "d" ∈ F := (tryLoop_inv hFtl).1
    have hFd : F = ["d"] ∨ F = ["f", "d"] := by
      rcases hF with rfl | rfl | rfl | rfl
      · cases hdF
      · simp at hdF
      · exact Or.inl rfl
      · exact Or.inr rfl
    have hlen3 : stored.length ≠ 0 := by
      rw [hstd]
      cases zs with
      | nil => exact absurd rfl hzs_ne
      | cons a t => simp
    have hnum3 : isAllNumeric stored = true := by
      rw [hstd]
      exact isAllNumeric_map_float _
    have hloop : tryLoop (I ++ F) stored true (listMin zs) (listMax zs)
        = some ("d", stored) := by
      rcases hFd with rfl | rfl
      · cases zs with
        | nil => exact absurd rfl hzs_ne
        | cons z0 zt =>
          rw [hstd] at htaf ⊢
          simp only [List.map_cons] at htaf ⊢
          rw [tryLoop_intSkip I hI]
          exact tryLoop_step_hit (by simp) htaf
      · by_cases hsig : f32RangeExceeded (listMin zs) (listMax zs) = true
        · cases zs with
          | nil => exact absurd rfl hzs_ne
          | cons z0 zt =>
            rw [hstd] at htaf ⊢
            simp only [List.map_cons] at htaf ⊢
            rw [tryLoop_intSkip I hI]
            rw [tryLoop_step_skip ⟨Or.inl rfl, rfl, rfl, hsig⟩]
            exact tryLoop_step_hit (by simp) htaf
        · -- the "f" attempt cannot have failed: on coercible values the
          -- float32 construction is total, so the guard must have tripped
          have hns : ¬ ((("f" : String) = "f" ∨ ("f" : String) = "d")
              ∧ (true : Bool) = true ∧ ("f" : String) = "f"
              ∧ f32RangeExceeded (listMin zs) (listMax zs) = true) :=
            fun hc => hsig hc.2.2.2
          have hfnone : tryArray "f" values = none :=
            tryLoop_cons_fail_of hFtl (by simp) hns
          rw [tryArray_f_eq hco] at hfnone
          cases hfnone
    unfold selectArray
    rw [if_neg hlen3, if_neg (by rw [hnum3]; simp), hco3]
    dsimp only
    rw [hst3]
    rw [if_neg (by rw [hnf0]; simp)]
    dsimp only
    rw [hIF, hloop]

theorem c9_witness :
    selectArray [PyVal.int 5] defaultOpts = .ok (.arr "B" [PyVal.int 5]) :=
  c9_idempotent [PyVal.int 5] defaultOpts "B" [PyVal.int 5] selectEval_int5

end ToArray


